import Mathlib

/-!
Verification of otb-prefetch: `PrefetchCacheAsyncFilter`.

Shallow embedding of `include/otbPrefetchCacheAsyncFilter.h` / `.hxx`.

Modelling conventions.

* `itk::ImageRegion<2>` is embedded as `RegionType` with the member functions the
  filter calls (`GetNumberOfPixels`, `GetUpperIndex`, `IsInside`, `Crop`), written
  after the ITK implementation.  ITK's 64-bit `IndexValueType` / `SizeValueType`
  are embedded as `Int` / `Nat`; coordinates are taken to fit the machine types
  (including the `int` arguments of `RegionSlice1D`), so no wrap-around of
  coordinates is modelled.  The one unsigned subtraction of pixel counts in
  `GetMissingRegions` is modelled modulo `2 ^ 64`.
* The four metrics members are C++ `float`s.  They only ever hold integers, so a
  `float` is embedded as the integer it holds and every conversion / addition /
  subtraction rounds to the nearest binary32 value (ties to even), see `roundF32`.
* The background thread is joined before the cache is read again, so one cycle is
  embedded sequentially: `GenerateData` followed by `GetNextRegion`.
-/

namespace otb

/-! ## Region geometry (`itk::Index`, `itk::ImageRegion`) -/

/-- Pixel index `itk::Index<2>`: component 0 is `x`, component 1 is `y`. -/
structure IndexType where
  x : Int
  y : Int
deriving DecidableEq, Repr

/-- Image region `itk::ImageRegion<2>`: start index `(ix, iy)` = `GetIndex()`,
size `(sx, sy)` = `GetSize()`. -/
structure RegionType where
  ix : Int
  iy : Int
  sx : Nat
  sy : Nat
deriving DecidableEq, Repr

namespace RegionType

/-- `GetIndex()`. -/
def GetIndex (r : RegionType) : IndexType := ⟨r.ix, r.iy⟩

/-- `GetNumberOfPixels()`: the product of the sizes. -/
def GetNumberOfPixels (r : RegionType) : Nat := r.sx * r.sy

/-- `GetUpperIndex()`: `m_Index[i] + m_Size[i] - 1` on each axis. -/
def GetUpperIndex (r : RegionType) : IndexType := ⟨r.ix + r.sx - 1, r.iy + r.sy - 1⟩

/-- `IsInside(const IndexType &)`: the index lies in the half-open box. -/
def IsInsideIndex (r : RegionType) (p : IndexType) : Bool :=
  decide (r.ix ≤ p.x) && decide (p.x < r.ix + r.sx) &&
  decide (r.iy ≤ p.y) && decide (p.y < r.iy + r.sy)

/-- `IsInside(const Self &)`: the argument lies completely inside this region.  A
region with a zero size on some axis is never inside; otherwise both its first
and its last index must be inside. -/
def IsInside (r other : RegionType) : Bool :=
  r.IsInsideIndex other.GetIndex &&
  !(decide (other.sx = 0)) && !(decide (other.sy = 0)) &&
  r.IsInsideIndex other.GetUpperIndex

/-- First loop of `Crop` on one axis: cropping is impossible when this region
starts at or after the end of the other one, or ends at or before its start. -/
def cropPossibleAxis (mi : Int) (ms : Nat) (ri : Int) (rs : Nat) : Bool :=
  !(decide (mi ≥ ri + rs)) && !(decide (mi + ms ≤ ri))

/-- Second loop of `Crop` on one axis: first move the start index up to the other
region's start (shrinking the size by as much), then cut the size at the other
region's end. -/
def cropAxis (mi : Int) (ms : Nat) (ri : Int) (rs : Nat) : Int × Nat :=
  let i1 := if mi < ri then ri else mi
  let s1 := if mi < ri then ms - (ri - mi).toNat else ms
  let s2 := if i1 + s1 > ri + rs then s1 - (i1 + s1 - ri - rs).toNat else s1
  (i1, s2)

/-- `Crop(const Self & region)`: returns whether cropping was possible together
with the region afterwards; the region is left unchanged when it was not. -/
def Crop (m region : RegionType) : Bool × RegionType :=
  if cropPossibleAxis m.ix m.sx region.ix region.sx &&
      cropPossibleAxis m.iy m.sy region.iy region.sy then
    (true, ⟨(cropAxis m.ix m.sx region.ix region.sx).1,
            (cropAxis m.iy m.sy region.iy region.sy).1,
            (cropAxis m.ix m.sx region.ix region.sx).2,
            (cropAxis m.iy m.sy region.iy region.sy).2⟩)
  else
    (false, m)

/-- Indices `i, i+1, ..., i+s-1` of one axis. -/
def axisIndices (i : Int) : Nat → List Int
  | 0 => []
  | s + 1 => i :: axisIndices (i + 1) s

/-- Indices of a region in the order an `itk::ImageRegionIterator` walks them:
row by row, `x` fastest. -/
def indices (r : RegionType) : List IndexType :=
  (axisIndices r.iy r.sy).flatMap fun y => (axisIndices r.ix r.sx).map fun x => ⟨x, y⟩

end RegionType

/-! ## Single-precision accumulators -/

/-- Number of times `n` has to be halved to fall below `2 ^ 24`: the binary32
exponent of the unit in the last place of `n`. -/
def f32Shift : Nat → Nat → Nat
  | 0, _ => 0
  | fuel + 1, n => if n < 2 ^ 24 then 0 else f32Shift fuel (n / 2) + 1

/-- Round a natural number to the nearest binary32 value (24-bit significand),
ties to even.  Overflow to infinity (above `2 ^ 128`) is not modelled. -/
def roundNatF32 (n : Nat) : Nat :=
  let e := f32Shift n n
  let q := n / 2 ^ e
  let r := n % 2 ^ e
  if 2 * r < 2 ^ e then q * 2 ^ e
  else if 2 * r > 2 ^ e then (q + 1) * 2 ^ e
  else if q % 2 = 0 then q * 2 ^ e
  else (q + 1) * 2 ^ e

/-- Round an integer to the nearest binary32 value. -/
def roundF32 (v : Int) : Int :=
  if v < 0 then -((roundNatF32 (-v).toNat : Nat) : Int) else ((roundNatF32 v.toNat : Nat) : Int)

/-- Conversion `unsigned long → float`. -/
def ulongToFloat (n : Nat) : Int := roundF32 n

/-- `float + float`. -/
def floatAdd (a b : Int) : Int := roundF32 (a + b)

/-- `float - float`. -/
def floatSub (a b : Int) : Int := roundF32 (a - b)

/-- `unsigned long - unsigned long`, modulo `2 ^ 64`. -/
def ulongSub (a b : Nat) : Nat := (((a : Int) - (b : Int)) % (2 ^ 64 : Int)).toNat

/-! ## Images -/

/-- An image buffer: its buffered region and the pixel stored at each index
(`none`: not allocated or never written). -/
structure ImageType (Pixel : Type) where
  BufferedRegion : RegionType
  pixel : IndexType → Option Pixel

/-- Writing one pixel through an iterator (`outIt.Set`). -/
def ImageType.SetPixel {Pixel : Type} (img : ImageType Pixel) (p : IndexType)
    (v : Option Pixel) : ImageType Pixel :=
  { img with pixel := fun q => if q = p then v else img.pixel q }

/-- The upstream image: its largest possible region and the pixel value the
upstream pipeline produces at each index. -/
structure InputImage (Pixel : Type) where
  LargestPossibleRegion : RegionType
  value : IndexType → Pixel

/-- An `ImageRegionConstIterator` over `region` of `buffer`: the buffer (a null
pointer is `none`) and the indices still to be visited. -/
structure ConstIteratorType (Pixel : Type) where
  buffer : Option (ImageType Pixel)
  remaining : List IndexType

/-- `it.Get()`: the pixel of the buffer at the iterator's position. -/
def ConstIteratorType.Get {Pixel : Type} (it : ConstIteratorType Pixel) : Option Pixel :=
  match it.buffer, it.remaining with
  | some img, p :: _ => img.pixel p
  | _, _ => none

/-- `++it`. -/
def ConstIteratorType.next {Pixel : Type} (it : ConstIteratorType Pixel) :
    ConstIteratorType Pixel :=
  { it with remaining := it.remaining.tail }

/-! ## The filter -/

/-- One-dimensional slice of the requested region (`RegionSlice1D`). -/
structure RegionSlice1D where
  start : Int
  size : Nat
  cached : Bool
deriving DecidableEq, Repr

/-- Member variables of `PrefetchCacheAsyncFilter` (the thread and the mutex are
not part of the sequential embedding). -/
structure PrefetchCacheAsyncFilter (Pixel : Type) where
  m_PreviousGeneratedRegion : RegionType
  m_CachedRegion : RegionType
  m_CachedBuffer : Option (ImageType Pixel)
  m_ExtraGuesses : Int
  m_MissedGuesses : Int
  m_GoodGuesses : Int
  m_NbOfProcessedPixels : Int

/-- The constructor: cached region and accumulators set to zero; the previous
region is a default-constructed (all-zero) region and the buffer a null pointer. -/
def PrefetchCacheAsyncFilter.New (Pixel : Type) : PrefetchCacheAsyncFilter Pixel :=
  { m_PreviousGeneratedRegion := ⟨0, 0, 0, 0⟩
    m_CachedRegion := ⟨0, 0, 0, 0⟩
    m_CachedBuffer := none
    m_ExtraGuesses := 0
    m_MissedGuesses := 0
    m_GoodGuesses := 0
    m_NbOfProcessedPixels := 0 }

/-- `GetImageRegion`: trigger the upstream pipeline on `region` and copy the result,
pixel by pixel, into a new buffer whose buffered region is `region`. -/
def GetImageRegion {Pixel : Type} (input : InputImage Pixel) (region : RegionType) :
    ImageType Pixel :=
  region.indices.foldl (fun buffer p => buffer.SetPixel p (some (input.value p)))
    ⟨region, fun _ => none⟩

/-- `IsSquare`. -/
def IsSquare (region : RegionType) : Bool := decide (region.sx = region.sy)

/-- The region `RegionType(start, size)` that `GuessNextRegion` assigns to
`m_CachedRegion` before cropping it. -/
def guessedRegion (previous generatedRegion : RegionType) : RegionType :=
  let shift0 := generatedRegion.ix - previous.ix
  let shift1 := generatedRegion.iy - previous.iy
  let shiftValue := if shift0 ≤ 0 then shift1 else shift0
  let shiftDim : Nat := if previous.ix = generatedRegion.ix then 1 else 0
  let start0 := if shiftDim = 0 then generatedRegion.ix + shiftValue else generatedRegion.ix
  let start1 := if shiftDim = 1 then generatedRegion.iy + shiftValue else generatedRegion.iy
  if IsSquare previous && !IsSquare generatedRegion then
    ⟨0, generatedRegion.iy + shift0, previous.sx, previous.sy⟩
  else
    ⟨start0, start1, generatedRegion.sx, generatedRegion.sy⟩

/-- `GuessNextRegion`: store the guess in `m_CachedRegion`, crop it by the input's
largest possible region and return whether the crop was possible. -/
def GuessNextRegion {Pixel : Type} (input : InputImage Pixel)
    (self : PrefetchCacheAsyncFilter Pixel) (generatedRegion : RegionType) :
    Bool × PrefetchCacheAsyncFilter Pixel :=
  let guess := guessedRegion self.m_PreviousGeneratedRegion generatedRegion
  let cropped := guess.Crop input.LargestPossibleRegion
  (cropped.1, { self with m_CachedRegion := cropped.2 })

/-- `GetNextRegion` (the body of the background thread).  Returns the filter
afterwards and the regions it fetched from upstream. -/
def GetNextRegion {Pixel : Type} (input : InputImage Pixel)
    (self : PrefetchCacheAsyncFilter Pixel) (generatedRegion : RegionType) :
    PrefetchCacheAsyncFilter Pixel × List RegionType :=
  let g := GuessNextRegion input self generatedRegion
  let guessed := g.1
  let s1 := g.2
  let r : PrefetchCacheAsyncFilter Pixel × List RegionType :=
    if s1.m_CachedRegion.GetNumberOfPixels > 0 then
      if guessed then
        ({ s1 with m_CachedBuffer := some (GetImageRegion input s1.m_CachedRegion) },
          [s1.m_CachedRegion])
      else
        ({ s1 with m_CachedRegion := ⟨0, 0, 0, 0⟩ }, [])
    else (s1, [])
  ({ r.1 with m_PreviousGeneratedRegion := generatedRegion }, r.2)

/-- The slices of one axis built in the `dim` loop of `GetMissingRegions`.  The sizes are
unsigned in the source; the loop is only reached when the cached region has pixels and
touches the request, where the three differences are never negative, so `Int.toNat` is the
identity on them. -/
def dimSplits (outStart outEnd cacheStart cacheEnd : Int) : List RegionSlice1D :=
  let rngStart := max outStart cacheStart
  let rngEnd := min outEnd cacheEnd
  (if outStart ≤ rngStart ∧ rngEnd ≤ outEnd then
      [⟨rngStart, (rngEnd - rngStart + 1).toNat, true⟩] else []) ++
  (if outStart < rngStart then
      [⟨outStart, (rngStart - outStart).toNat, false⟩] else []) ++
  (if rngEnd < outEnd then
      [⟨rngEnd + 1, (outEnd - rngEnd).toNat, false⟩] else [])

/-- The nested loop over `dim_splits[0]` and `dim_splits[1]`: every combination
with a slice that is not cached becomes a missing region. -/
def collectRegions (xSplits ySplits : List RegionSlice1D) : List RegionType :=
  xSplits.flatMap fun x_split =>
    (ySplits.filter fun y_split => !x_split.cached || !y_split.cached).map fun y_split =>
      ⟨x_split.start, y_split.start, x_split.size, y_split.size⟩

/-- The metrics update at the start of `GetMissingRegions`. -/
def updateMetrics {Pixel : Type} (self : PrefetchCacheAsyncFilter Pixel)
    (outputReqRegion : RegionType) : PrefetchCacheAsyncFilter Pixel :=
  let forStats := self.m_CachedRegion.Crop outputReqRegion
  let processed := floatAdd self.m_NbOfProcessedPixels
    (ulongToFloat outputReqRegion.GetNumberOfPixels)
  let nbOfCachedPixels := ulongToFloat self.m_CachedRegion.GetNumberOfPixels
  if forStats.1 then
    { self with
      m_NbOfProcessedPixels := processed
      m_ExtraGuesses := floatAdd self.m_ExtraGuesses
        (floatSub nbOfCachedPixels (ulongToFloat forStats.2.GetNumberOfPixels))
      m_GoodGuesses := floatAdd self.m_GoodGuesses (ulongToFloat forStats.2.GetNumberOfPixels)
      m_MissedGuesses := floatAdd self.m_MissedGuesses
        (ulongToFloat (ulongSub outputReqRegion.GetNumberOfPixels forStats.2.GetNumberOfPixels)) }
  else
    { self with
      m_NbOfProcessedPixels := processed
      m_ExtraGuesses := floatAdd self.m_ExtraGuesses nbOfCachedPixels
      m_MissedGuesses := floatAdd self.m_MissedGuesses
        (ulongToFloat outputReqRegion.GetNumberOfPixels) }

/-- The list of regions returned by `GetMissingRegions`, as a function of the
cached region and the requested region. -/
def missingRegions (cachedRegion outputReqRegion : RegionType) : List RegionType :=
  let touches := (cachedRegion.Crop outputReqRegion).1
  if cachedRegion.IsInside outputReqRegion then []
  else if cachedRegion.GetNumberOfPixels = 0 || !touches then [outputReqRegion]
  else
    let outStart := outputReqRegion.GetIndex
    let outEnd := outputReqRegion.GetUpperIndex
    let cacheStart := cachedRegion.GetIndex
    let cacheEnd := cachedRegion.GetUpperIndex
    collectRegions (dimSplits outStart.x outEnd.x cacheStart.x cacheEnd.x)
      (dimSplits outStart.y outEnd.y cacheStart.y cacheEnd.y)

/-- `GetMissingRegions`: update the metrics, return the missing regions. -/
def GetMissingRegions {Pixel : Type} (self : PrefetchCacheAsyncFilter Pixel)
    (outputReqRegion : RegionType) : List RegionType × PrefetchCacheAsyncFilter Pixel :=
  (missingRegions self.m_CachedRegion outputReqRegion, updateMetrics self outputReqRegion)

/-- Inner loop of the fill in `GenerateData` at output index `idx`: every source
whose region contains `idx` writes its iterator's pixel to the output and
advances its iterator. -/
def fillIndex {Pixel : Type} (idx : IndexType) :
    List (RegionType × ConstIteratorType Pixel) → ImageType Pixel →
    List (RegionType × ConstIteratorType Pixel) × ImageType Pixel
  | [], out => ([], out)
  | (region, it) :: rest, out =>
    if region.IsInsideIndex idx then
      let r := fillIndex idx rest (out.SetPixel idx it.Get)
      ((region, it.next) :: r.1, r.2)
    else
      let r := fillIndex idx rest out
      ((region, it) :: r.1, r.2)

/-- Outer loop of the fill in `GenerateData` over the indices of the output. -/
def fillOutput {Pixel : Type} :
    List IndexType → List (RegionType × ConstIteratorType Pixel) → ImageType Pixel →
    ImageType Pixel
  | [], _, out => out
  | idx :: rest, sources, out =>
    let r := fillIndex idx sources out
    fillOutput rest r.1 r.2

/-- What one call of `GenerateData` produces: the filter afterwards, the output
image, and the regions fetched from upstream by `GetImageRegion`, in order. -/
structure GenerateDataResult (Pixel : Type) where
  filter : PrefetchCacheAsyncFilter Pixel
  output : ImageType Pixel
  fetched : List RegionType
  allRegions : List RegionType

/-- `GenerateData` for the requested region `outputReqRegion` (the background
thread of the previous call has been joined). -/
def GenerateData {Pixel : Type} (input : InputImage Pixel)
    (self : PrefetchCacheAsyncFilter Pixel) (outputReqRegion : RegionType) :
    GenerateDataResult Pixel :=
  let m := GetMissingRegions self outputReqRegion
  let missing := m.1
  let s1 := m.2
  let missingBuffers := missing.map fun region => GetImageRegion input region
  let cachedRegionForOutput := (s1.m_CachedRegion.Crop outputReqRegion).2
  let allRegions :=
    if cachedRegionForOutput.GetNumberOfPixels > 0 then missing ++ [cachedRegionForOutput]
    else missing
  let allBuffers : List (Option (ImageType Pixel)) :=
    if cachedRegionForOutput.GetNumberOfPixels > 0 then
      missingBuffers.map some ++ [s1.m_CachedBuffer]
    else missingBuffers.map some
  let allIterators : List (ConstIteratorType Pixel) :=
    (allBuffers.zip allRegions).map fun br => ⟨br.1, br.2.indices⟩
  let out := fillOutput outputReqRegion.indices (allRegions.zip allIterators)
    ⟨outputReqRegion, fun _ => none⟩
  { filter := s1, output := out, fetched := missing, allRegions := allRegions }

/-- One complete cycle: `GenerateData`, then the background `GetNextRegion` run to
completion. -/
def Request {Pixel : Type} (input : InputImage Pixel)
    (self : PrefetchCacheAsyncFilter Pixel) (R : RegionType) :
    PrefetchCacheAsyncFilter Pixel × ImageType Pixel :=
  let g := GenerateData input self R
  ((GetNextRegion input g.filter R).1, g.output)

/-- A sequence of cycles: the filter afterwards and the outputs, in order. -/
def runRequests {Pixel : Type} (input : InputImage Pixel) :
    PrefetchCacheAsyncFilter Pixel → List RegionType →
    PrefetchCacheAsyncFilter Pixel × List (ImageType Pixel)
  | self, [] => (self, [])
  | self, R :: rest =>
    let r := Request input self R
    let t := runRequests input r.1 rest
    (t.1, r.2 :: t.2)

/-- A value of one axis lies in a slice. -/
def RegionSlice1D.Contains (s : RegionSlice1D) (v : Int) : Prop :=
  s.start ≤ v ∧ v < s.start + s.size

/-- Two regions have no index in common. -/
def RegionType.DisjointFrom (a b : RegionType) : Prop :=
  ∀ p : IndexType, ¬(a.IsInsideIndex p = true ∧ b.IsInsideIndex p = true)

/-- Sum of the pixel counts of a list of regions. -/
def totalPixels (L : List RegionType) : Nat := (L.map RegionType.GetNumberOfPixels).sum

/-- The rectangles of `L` are pairwise disjoint and their union is `R` without `K`. -/
def IsDisjointCover (L : List RegionType) (R K : RegionType) : Prop :=
  L.Pairwise RegionType.DisjointFrom ∧
  ∀ p : IndexType, (∃ A ∈ L, A.IsInsideIndex p = true) ↔
    (R.IsInsideIndex p = true ∧ K.IsInsideIndex p = false)

/-! ## Region geometry: basic facts -/

theorem RegionType.isInsideIndex_iff (r : RegionType) (p : IndexType) :
    r.IsInsideIndex p = true ↔
      r.ix ≤ p.x ∧ p.x < r.ix + r.sx ∧ r.iy ≤ p.y ∧ p.y < r.iy + r.sy := by
  simp [RegionType.IsInsideIndex, and_assoc]

theorem RegionType.isInside_iff (r other : RegionType) :
    r.IsInside other = true ↔
      0 < other.sx ∧ 0 < other.sy ∧ r.ix ≤ other.ix ∧ other.ix + other.sx ≤ r.ix + r.sx ∧
        r.iy ≤ other.iy ∧ other.iy + other.sy ≤ r.iy + r.sy := by
  simp only [RegionType.IsInside, RegionType.IsInsideIndex, RegionType.GetIndex,
    RegionType.GetUpperIndex, Bool.and_eq_true, Bool.not_eq_true', decide_eq_true_eq,
    decide_eq_false_iff_not]
  constructor
  · rintro ⟨⟨⟨⟨⟨⟨h1, h2⟩, h3⟩, h4⟩, h5⟩, h6⟩, ⟨⟨h7, h8⟩, h9⟩, h10⟩
    omega
  · intro h
    omega

theorem RegionType.crop_fst_iff (m r : RegionType) :
    (m.Crop r).1 = true ↔
      m.ix < r.ix + r.sx ∧ r.ix < m.ix + m.sx ∧ m.iy < r.iy + r.sy ∧ r.iy < m.iy + m.sy := by
  unfold RegionType.Crop
  split
  · rename_i h
    simp only [RegionType.cropPossibleAxis, Bool.and_eq_true, Bool.not_eq_true',
      decide_eq_false_iff_not] at h
    simp only [true_iff]
    omega
  · rename_i h
    simp only [RegionType.cropPossibleAxis, Bool.and_eq_true, Bool.not_eq_true',
      decide_eq_false_iff_not] at h
    simp only [Bool.false_eq_true, false_iff]
    omega

theorem RegionType.crop_snd_of_not (m r : RegionType) (h : (m.Crop r).1 = false) :
    (m.Crop r).2 = m := by
  unfold RegionType.Crop at h ⊢
  split
  · rename_i h1
    simp [h1] at h
  · rfl

theorem RegionType.cropAxis_spec (mi : Int) (ms : Nat) (ri : Int) (rs : Nat)
    (h1 : mi < ri + rs) (h2 : ri < mi + ms) :
    (RegionType.cropAxis mi ms ri rs).1 = max mi ri ∧
      (((RegionType.cropAxis mi ms ri rs).2 : Nat) : Int) =
        min (mi + ms) (ri + rs) - max mi ri := by
  unfold RegionType.cropAxis
  simp only
  split_ifs <;> omega

theorem RegionType.crop_snd_of_touches (m r : RegionType) (h : (m.Crop r).1 = true) :
    (m.Crop r).2.ix = max m.ix r.ix ∧
    (((m.Crop r).2.sx : Nat) : Int) = min (m.ix + m.sx) (r.ix + r.sx) - max m.ix r.ix ∧
    (m.Crop r).2.iy = max m.iy r.iy ∧
    (((m.Crop r).2.sy : Nat) : Int) = min (m.iy + m.sy) (r.iy + r.sy) - max m.iy r.iy := by
  have ht := (RegionType.crop_fst_iff m r).1 h
  have hx := RegionType.cropAxis_spec m.ix m.sx r.ix r.sx ht.1 ht.2.1
  have hy := RegionType.cropAxis_spec m.iy m.sy r.iy r.sy ht.2.2.1 ht.2.2.2
  unfold RegionType.Crop at h ⊢
  split
  · exact ⟨hx.1, hx.2, hy.1, hy.2⟩
  · rename_i h1
    simp [h1] at h

theorem RegionType.crop_mem_iff (m r : RegionType) (h : (m.Crop r).1 = true) (p : IndexType) :
    (m.Crop r).2.IsInsideIndex p = true ↔
      m.IsInsideIndex p = true ∧ r.IsInsideIndex p = true := by
  obtain ⟨h1, h2, h3, h4⟩ := RegionType.crop_snd_of_touches m r h
  simp only [RegionType.isInsideIndex_iff]
  omega

/-! ## The one-dimensional slices -/

theorem mem_dimSplits (o oe c ce : Int) (s : RegionSlice1D) :
    s ∈ dimSplits o oe c ce ↔
      s = ⟨max o c, (min oe ce - max o c + 1).toNat, true⟩ ∨
      (o < c ∧ s = ⟨o, (c - o).toNat, false⟩) ∨
      (ce < oe ∧ s = ⟨ce + 1, (oe - ce).toNat, false⟩) := by
  have e1 : (o ≤ max o c ∧ min oe ce ≤ oe) := by omega
  have e2 : (o < max o c) ↔ o < c := by omega
  have e3 : (min oe ce < oe) ↔ ce < oe := by omega
  unfold dimSplits
  simp only [e1, e2, e3, and_self, if_true, List.mem_append, List.mem_singleton]
  by_cases hl : o < c <;> by_cases hr : ce < oe
  · have m1 : max o c = c := by omega
    have m2 : min oe ce = ce := by omega
    simp [hl, hr, m1, m2, or_assoc]
  · have m1 : max o c = c := by omega
    simp [hl, hr, m1]
  · have m2 : min oe ce = ce := by omega
    simp [hl, hr, m2]
  · simp [hl, hr]

theorem dimSplits_mem_cases (o oe c ce : Int)
    (s : RegionSlice1D) (hs : s ∈ dimSplits o oe c ce) :
    ∃ lo hi : Int, (lo = o ∨ lo = c) ∧ o ≤ lo ∧ c ≤ lo ∧ (hi = oe ∨ hi = ce) ∧ hi ≤ oe ∧ hi ≤ ce ∧
    ((s.cached = true ∧ s.start = lo ∧ s.size = (hi - lo + 1).toNat) ∨
     (s.cached = false ∧ o < c ∧ s.start = o ∧ s.size = (c - o).toNat) ∨
     (s.cached = false ∧ ce < oe ∧ s.start = ce + 1 ∧ s.size = (oe - ce).toNat)) := by
  refine ⟨max o c, min oe ce, ?_, le_max_left _ _, le_max_right _ _, ?_, min_le_left _ _,
    min_le_right _ _, ?_⟩
  · rcases max_cases o c with h | h
    · exact Or.inl h.1
    · exact Or.inr h.1
  · rcases min_cases oe ce with h | h
    · exact Or.inl h.1
    · exact Or.inr h.1
  · rcases (mem_dimSplits o oe c ce s).1 hs with h | ⟨h, e⟩ | ⟨h, e⟩
    · exact Or.inl (by rw [h]; exact ⟨rfl, rfl, rfl⟩)
    · exact Or.inr (Or.inl (by rw [e]; exact ⟨rfl, h, rfl, rfl⟩))
    · exact Or.inr (Or.inr (by rw [e]; exact ⟨rfl, h, rfl, rfl⟩))

theorem dimSplits_bounds (o oe c ce : Int) (h1 : c ≤ oe) (h2 : o ≤ ce) (h3 : o ≤ oe)
    (h4 : c ≤ ce) (s : RegionSlice1D) (hs : s ∈ dimSplits o oe c ce) :
    0 < s.size ∧ o ≤ s.start ∧ s.start + s.size ≤ oe + 1 := by
  obtain ⟨lo, hi, h⟩ := dimSplits_mem_cases o oe c ce s hs
  omega

theorem dimSplits_cached_iff (o oe c ce : Int)
    (s : RegionSlice1D) (hs : s ∈ dimSplits o oe c ce) (v : Int) (hv : s.Contains v) :
    s.cached = true ↔ c ≤ v ∧ v ≤ ce := by
  unfold RegionSlice1D.Contains at hv
  obtain ⟨lo, hi, hlo, hlo1, hlo2, hhi, hhi1, hhi2, h⟩ := dimSplits_mem_cases o oe c ce s hs
  rcases h with ⟨hc, h⟩ | ⟨hc, h⟩ | ⟨hc, h⟩ <;>
    simp only [hc, Bool.false_eq_true, false_iff, true_iff] <;> omega

theorem dimSplits_cover (o oe c ce : Int) (v : Int)
    (hv1 : o ≤ v) (hv2 : v ≤ oe) :
    ∃ s ∈ dimSplits o oe c ce, s.Contains v := by
  by_cases hl : v < c
  · refine ⟨⟨o, (c - o).toNat, false⟩,
      (mem_dimSplits o oe c ce _).2 (Or.inr (Or.inl ⟨by omega, rfl⟩)), ?_⟩
    show o ≤ v ∧ v < o + ((c - o).toNat : Int)
    omega
  · by_cases hr : ce < v
    · refine ⟨⟨ce + 1, (oe - ce).toNat, false⟩,
        (mem_dimSplits o oe c ce _).2 (Or.inr (Or.inr ⟨by omega, rfl⟩)), ?_⟩
      show ce + 1 ≤ v ∧ v < ce + 1 + ((oe - ce).toNat : Int)
      omega
    · refine ⟨⟨max o c, (min oe ce - max o c + 1).toNat, true⟩,
        (mem_dimSplits o oe c ce _).2 (Or.inl rfl), ?_⟩
      show max o c ≤ v ∧ v < max o c + ((min oe ce - max o c + 1).toNat : Int)
      rcases max_cases o c with ⟨hM, _⟩ | ⟨hM, _⟩ <;>
        rcases min_cases oe ce with ⟨hm, _⟩ | ⟨hm, _⟩ <;> rw [hM, hm] <;> omega

theorem dimSplits_eq (o oe c ce : Int) :
    dimSplits o oe c ce =
      ⟨max o c, (min oe ce - max o c + 1).toNat, true⟩ ::
        ((if o < c then [⟨o, (c - o).toNat, false⟩] else []) ++
         (if ce < oe then [⟨ce + 1, (oe - ce).toNat, false⟩] else [])) := by
  have e1 : (o ≤ max o c ∧ min oe ce ≤ oe) := ⟨le_max_left _ _, min_le_left _ _⟩
  have e2 : (o < max o c) ↔ o < c := lt_max_iff.trans (by simp)
  have e3 : (min oe ce < oe) ↔ ce < oe := min_lt_iff.trans (by simp)
  unfold dimSplits
  simp only [e1, e2, e3, and_self, if_true]
  by_cases hl : o < c <;> by_cases hr : ce < oe
  · have m1 : max o c = c := max_eq_right hl.le
    have m2 : min oe ce = ce := min_eq_right hr.le
    simp [hl, hr, m1, m2]
  · have m1 : max o c = c := max_eq_right hl.le
    simp [hl, hr, m1]
  · have m2 : min oe ce = ce := min_eq_right hr.le
    simp [hl, hr, m2]
  · simp [hl, hr]

theorem dimSplits_nodup_pairwise (o oe c ce : Int) (h2 : o ≤ ce) (h4 : c ≤ ce) :
    (dimSplits o oe c ce).Pairwise fun a b => a.start ≠ b.start := by
  rw [dimSplits_eq]
  have hlo : o ≤ max o c ∧ c ≤ max o c ∧ (max o c = o ∨ max o c = c) :=
    ⟨le_max_left _ _, le_max_right _ _, max_choice _ _⟩
  have hhi : min oe ce ≤ oe ∧ min oe ce ≤ ce ∧ (min oe ce = oe ∨ min oe ce = ce) :=
    ⟨min_le_left _ _, min_le_right _ _, min_choice _ _⟩
  generalize max o c = lo at hlo ⊢
  generalize min oe ce = hi at hhi ⊢
  split_ifs <;>
    simp only [List.append_nil, List.singleton_append, List.pairwise_cons, List.mem_cons,
      List.mem_singleton, List.not_mem_nil, forall_eq_or_imp, forall_eq, false_imp_iff,
      implies_true, and_true, List.Pairwise.nil, List.nil_append, IsEmpty.forall_iff, ne_eq] <;>
    omega

theorem dimSplits_disjoint (o oe c ce : Int) (h4 : c ≤ ce) (a b : RegionSlice1D) (ha : a ∈ dimSplits o oe c ce) (hb : b ∈ dimSplits o oe c ce)
    (hab : a.start ≠ b.start) (v : Int) : ¬(a.Contains v ∧ b.Contains v) := by
  unfold RegionSlice1D.Contains
  obtain ⟨lo, hi, ha'⟩ := dimSplits_mem_cases o oe c ce a ha
  obtain ⟨lo', hi', hb'⟩ := dimSplits_mem_cases o oe c ce b hb
  omega

theorem dimSplits_pairwise (o oe c ce : Int) (h2 : o ≤ ce) (h4 : c ≤ ce) :
    (dimSplits o oe c ce).Pairwise fun a b => ∀ v, ¬(a.Contains v ∧ b.Contains v) :=
  (dimSplits_nodup_pairwise o oe c ce h2 h4).imp_of_mem
    fun ha hb hab => dimSplits_disjoint o oe c ce h4 _ _ ha hb hab

/-! ## The missing regions -/

theorem mem_collectRegions (X Y : List RegionSlice1D) (A : RegionType) :
    A ∈ collectRegions X Y ↔
      ∃ x ∈ X, ∃ y ∈ Y, (x.cached = false ∨ y.cached = false) ∧
        A = ⟨x.start, y.start, x.size, y.size⟩ := by
  simp only [collectRegions, List.mem_flatMap, List.mem_map, List.mem_filter, Bool.or_eq_true,
    Bool.not_eq_true']
  constructor
  · rintro ⟨x, hx, y, ⟨hy, hc⟩, rfl⟩
    exact ⟨x, hx, y, hy, hc, rfl⟩
  · rintro ⟨x, hx, y, hy, hc, rfl⟩
    exact ⟨x, hx, y, ⟨hy, hc⟩, rfl⟩

theorem collectRegions_pairwise (X Y : List RegionSlice1D)
    (hX : X.Pairwise fun a b => ∀ v, ¬(a.Contains v ∧ b.Contains v))
    (hY : Y.Pairwise fun a b => ∀ v, ¬(a.Contains v ∧ b.Contains v)) :
    (collectRegions X Y).Pairwise RegionType.DisjointFrom := by
  unfold collectRegions
  rw [List.pairwise_flatMap]
  constructor
  · intro x _
    refine List.Pairwise.map _ ?_ (hY.filter _)
    intro a b hab p hp
    simp only [RegionType.isInsideIndex_iff] at hp
    exact hab p.y ⟨⟨hp.1.2.2.1, hp.1.2.2.2⟩, ⟨hp.2.2.2.1, hp.2.2.2.2⟩⟩
  · refine hX.imp ?_
    intro a b hab A hA B hB p hp
    simp only [List.mem_map, List.mem_filter] at hA hB
    obtain ⟨ya, _, rfl⟩ := hA
    obtain ⟨yb, _, rfl⟩ := hB
    simp only [RegionType.isInsideIndex_iff] at hp
    exact hab p.x ⟨⟨hp.1.1, hp.1.2.1⟩, ⟨hp.2.1, hp.2.2.1⟩⟩

theorem missingRegions_cases (K R : RegionType) :
    (K.IsInside R = true ∧ missingRegions K R = []) ∨
    (K.IsInside R = false ∧ (K.GetNumberOfPixels = 0 ∨ (K.Crop R).1 = false) ∧
      missingRegions K R = [R]) ∨
    (K.IsInside R = false ∧ 0 < K.GetNumberOfPixels ∧ (K.Crop R).1 = true ∧
      missingRegions K R =
        collectRegions (dimSplits R.ix (R.ix + R.sx - 1) K.ix (K.ix + K.sx - 1))
          (dimSplits R.iy (R.iy + R.sy - 1) K.iy (K.iy + K.sy - 1))) := by
  unfold missingRegions
  by_cases h1 : K.IsInside R = true
  · exact Or.inl ⟨h1, by simp [h1]⟩
  · simp only [Bool.not_eq_true] at h1
    by_cases h2 : K.GetNumberOfPixels = 0
    · exact Or.inr (Or.inl ⟨h1, Or.inl h2, by simp [h1, h2]⟩)
    · by_cases h3 : (K.Crop R).1 = true
      · refine Or.inr (Or.inr ⟨h1, Nat.pos_of_ne_zero h2, h3, ?_⟩)
        simp [h1, h2, h3, RegionType.GetIndex, RegionType.GetUpperIndex]
      · simp only [Bool.not_eq_true] at h3
        exact Or.inr (Or.inl ⟨h1, Or.inr h3, by simp [h1, h3]⟩)

theorem RegionType.numberOfPixels_pos_iff (r : RegionType) :
    0 < r.GetNumberOfPixels ↔ 0 < r.sx ∧ 0 < r.sy := by
  simp only [RegionType.GetNumberOfPixels, Nat.pos_iff_ne_zero, ne_eq, Nat.mul_eq_zero, not_or]

theorem missingRegions_spec (K R : RegionType) (hR : 0 < R.GetNumberOfPixels) :
    (missingRegions K R).Pairwise RegionType.DisjointFrom ∧
    (∀ A ∈ missingRegions K R, R.IsInside A = true) ∧
    (∀ A ∈ missingRegions K R, ∀ p, A.IsInsideIndex p = true → K.IsInsideIndex p = false) ∧
    (∀ p, R.IsInsideIndex p = true → K.IsInsideIndex p = false →
      ∃ A ∈ missingRegions K R, A.IsInsideIndex p = true) := by
  have hRp := (RegionType.numberOfPixels_pos_iff R).1 hR
  rcases missingRegions_cases K R with ⟨hin, e⟩ | ⟨_, hK, e⟩ | ⟨_, hK, ht, e⟩
  · rw [e]
    refine ⟨List.Pairwise.nil, by simp, by simp, ?_⟩
    intro p hp hk
    exfalso
    have h1 := (RegionType.isInside_iff K R).1 hin
    have h2 := (RegionType.isInsideIndex_iff R p).1 hp
    have h3 : ¬(K.IsInsideIndex p = true) := by simp [hk]
    rw [RegionType.isInsideIndex_iff] at h3
    omega
  · rw [e]
    refine ⟨List.pairwise_singleton _ _, ?_, ?_, ?_⟩
    · intro A hA
      rw [List.mem_singleton] at hA
      subst hA
      rw [RegionType.isInside_iff]
      omega
    · intro A hA p hp
      rw [List.mem_singleton] at hA
      subst hA
      rw [← Bool.not_eq_true, RegionType.isInsideIndex_iff]
      rw [RegionType.isInsideIndex_iff] at hp
      rcases hK with hK | hK
      · have : ¬(0 < K.GetNumberOfPixels) := by omega
        rw [RegionType.numberOfPixels_pos_iff] at this
        omega
      · have : ¬((K.Crop A).1 = true) := by simp [hK]
        rw [RegionType.crop_fst_iff] at this
        omega
    · intro p hp _
      exact ⟨R, List.mem_singleton.2 rfl, hp⟩
  · have hKp := (RegionType.numberOfPixels_pos_iff K).1 hK
    have htt := (RegionType.crop_fst_iff K R).1 ht
    have x1 : K.ix ≤ R.ix + R.sx - 1 := by omega
    have x2 : R.ix ≤ K.ix + K.sx - 1 := by omega
    have x3 : R.ix ≤ R.ix + R.sx - 1 := by omega
    have x4 : K.ix ≤ K.ix + K.sx - 1 := by omega
    have y1 : K.iy ≤ R.iy + R.sy - 1 := by omega
    have y2 : R.iy ≤ K.iy + K.sy - 1 := by omega
    have y3 : R.iy ≤ R.iy + R.sy - 1 := by omega
    have y4 : K.iy ≤ K.iy + K.sy - 1 := by omega
    rw [e]
    refine ⟨collectRegions_pairwise _ _ (dimSplits_pairwise _ _ _ _ x2 x4)
      (dimSplits_pairwise _ _ _ _ y2 y4), ?_, ?_, ?_⟩
    · intro A hA
      obtain ⟨x, hx, y, hy, _, rfl⟩ := (mem_collectRegions _ _ A).1 hA
      have bx := dimSplits_bounds _ _ _ _ x1 x2 x3 x4 x hx
      have by' := dimSplits_bounds _ _ _ _ y1 y2 y3 y4 y hy
      rw [RegionType.isInside_iff]
      simp only
      omega
    · intro A hA p hp
      obtain ⟨x, hx, y, hy, hc, rfl⟩ := (mem_collectRegions _ _ A).1 hA
      rw [RegionType.isInsideIndex_iff] at hp
      simp only at hp
      have cx := dimSplits_cached_iff _ _ _ _ x hx p.x ⟨hp.1, hp.2.1⟩
      have cy := dimSplits_cached_iff _ _ _ _ y hy p.y ⟨hp.2.2.1, hp.2.2.2⟩
      rw [← Bool.not_eq_true, RegionType.isInsideIndex_iff]
      rcases hc with hc | hc
      · rw [hc] at cx
        simp only [Bool.false_eq_true, false_iff] at cx
        omega
      · rw [hc] at cy
        simp only [Bool.false_eq_true, false_iff] at cy
        omega
    · intro p hp hk
      rw [RegionType.isInsideIndex_iff] at hp
      rw [← Bool.not_eq_true, RegionType.isInsideIndex_iff] at hk
      obtain ⟨x, hx, hxv⟩ := dimSplits_cover R.ix (R.ix + R.sx - 1) K.ix (K.ix + K.sx - 1) p.x
        hp.1 (by omega)
      obtain ⟨y, hy, hyv⟩ := dimSplits_cover R.iy (R.iy + R.sy - 1) K.iy (K.iy + K.sy - 1) p.y
        hp.2.2.1 (by omega)
      have cx := dimSplits_cached_iff _ _ _ _ x hx p.x hxv
      have cy := dimSplits_cached_iff _ _ _ _ y hy p.y hyv
      refine ⟨⟨x.start, y.start, x.size, y.size⟩,
        (mem_collectRegions _ _ _).2 ⟨x, hx, y, hy, ?_, rfl⟩, ?_⟩
      · by_contra hcon
        simp only [not_or, Bool.not_eq_false] at hcon
        have := cx.1 hcon.1
        have := cy.1 hcon.2
        omega
      · rw [RegionType.isInsideIndex_iff]
        exact ⟨hxv.1, hxv.2, hyv.1, hyv.2⟩

theorem f32Shift_spec (fuel : Nat) : ∀ n : Nat, n ≤ fuel →
    (f32Shift fuel n = 0 ∧ n < 2 ^ 24) ∨
    (0 < f32Shift fuel n ∧ 2 ^ 23 ≤ n / 2 ^ f32Shift fuel n ∧ n / 2 ^ f32Shift fuel n < 2 ^ 24) := by
  induction fuel with
  | zero =>
    intro n hn
    have : n = 0 := by omega
    subst this
    exact Or.inl ⟨rfl, by norm_num⟩
  | succ fuel ih =>
    intro n hn
    by_cases h : n < 2 ^ 24
    · exact Or.inl ⟨by simp only [f32Shift, h, if_true], h⟩
    · have e : f32Shift (fuel + 1) n = f32Shift fuel (n / 2) + 1 := by
        simp only [f32Shift, h, if_false]
      have hdiv : n / 2 ^ (f32Shift fuel (n / 2) + 1) = n / 2 / 2 ^ f32Shift fuel (n / 2) := by
        rw [pow_succ, Nat.mul_comm, Nat.div_div_eq_div_mul]
      rw [e, hdiv]
      refine Or.inr ⟨Nat.succ_pos _, ?_⟩
      have h24 : (2 : Nat) ^ 24 = 16777216 := by norm_num
      have h23 : (2 : Nat) ^ 23 = 8388608 := by norm_num
      rcases ih (n / 2) (by omega) with ⟨h0, hlt⟩ | ⟨_, h1, h2⟩
      · rw [h0, pow_zero, Nat.div_one]
        omega
      · exact ⟨h1, h2⟩

theorem f32Shift_unique (fuel n e : Nat) (hn : n ≤ fuel) (he : 0 < e)
    (h1 : 2 ^ 23 ≤ n / 2 ^ e) (h2 : n / 2 ^ e < 2 ^ 24) : f32Shift fuel n = e := by
  have h24 : (2 : Nat) ^ 24 = 2 ^ 23 * 2 := by norm_num
  have key : ∀ a b : Nat, a < b → 2 ^ 23 ≤ n / 2 ^ b → n / 2 ^ a < 2 ^ 24 → False := by
    intro a b hab hb ha
    obtain ⟨d, rfl⟩ : ∃ d, b = a + (d + 1) := ⟨b - a - 1, by omega⟩
    have hd : n / 2 ^ (a + (d + 1)) = n / 2 ^ a / 2 ^ d / 2 := by
      rw [pow_add, pow_succ, ← Nat.div_div_eq_div_mul, ← Nat.div_div_eq_div_mul]
    rw [hd] at hb
    have : n / 2 ^ a / 2 ^ d / 2 ≤ n / 2 ^ a / 2 := Nat.div_le_div_right (Nat.div_le_self _ _)
    omega
  rcases f32Shift_spec fuel n hn with ⟨_, hlt⟩ | ⟨hpos, g1, g2⟩
  · exfalso
    have : n / 2 ^ e ≤ n / 2 := by
      obtain ⟨d, rfl⟩ : ∃ d, e = d + 1 := ⟨e - 1, by omega⟩
      have hd : n / 2 ^ (d + 1) = n / 2 ^ d / 2 := by
        rw [pow_succ, ← Nat.div_div_eq_div_mul]
      rw [hd]
      exact Nat.div_le_div_right (Nat.div_le_self _ _)
    omega
  · rcases Nat.lt_trichotomy (f32Shift fuel n) e with hlt | heq | hgt
    · exact (key _ _ hlt h1 g2).elim
    · exact heq
    · exact (key _ _ hgt g1 h2).elim

theorem roundNatF32_of_le (n : Nat) (h : n ≤ 2 ^ 24) : roundNatF32 n = n := by
  rcases Nat.lt_or_eq_of_le h with hlt | rfl
  · have e : f32Shift n n = 0 := by
      cases n with
      | zero => rfl
      | succ k => simp only [f32Shift, hlt, if_true]
    simp [roundNatF32, e, Nat.mod_one]
  · decide

theorem roundNatF32_mul_pow (q e : Nat) (he : 0 < e) (h1 : 2 ^ 23 ≤ q) (h2 : q < 2 ^ 24) :
    roundNatF32 (q * 2 ^ e) = q * 2 ^ e := by
  have hp : 0 < 2 ^ e := pow_pos (by norm_num) e
  have hs : f32Shift (q * 2 ^ e) (q * 2 ^ e) = e :=
    f32Shift_unique _ _ e le_rfl he (by rw [Nat.mul_div_cancel _ hp]; exact h1)
      (by rw [Nat.mul_div_cancel _ hp]; exact h2)
  unfold roundNatF32
  simp only [hs, Nat.mul_mod_left, Nat.mul_zero, hp, if_true]
  rw [Nat.mul_div_cancel _ hp]

theorem roundNatF32_idem (n : Nat) : roundNatF32 (roundNatF32 n) = roundNatF32 n := by
  have h24 : (2 : Nat) ^ 24 = 2 ^ 23 * 2 := by norm_num
  rcases f32Shift_spec n n le_rfl with ⟨h0, hlt⟩ | ⟨hpos, g1, g2⟩
  · rw [roundNatF32_of_le n hlt.le, roundNatF32_of_le n hlt.le]
  · have hq : roundNatF32 n = (n / 2 ^ f32Shift n n) * 2 ^ f32Shift n n ∨
        roundNatF32 n = (n / 2 ^ f32Shift n n + 1) * 2 ^ f32Shift n n := by
      unfold roundNatF32
      simp only
      split_ifs
      · exact Or.inl rfl
      · exact Or.inr rfl
      · exact Or.inl rfl
      · exact Or.inr rfl
    generalize f32Shift n n = e at hpos g1 g2 hq
    generalize n / 2 ^ e = q at g1 g2 hq
    rcases hq with hq | hq
    · rw [hq]
      exact roundNatF32_mul_pow q e hpos g1 g2
    · rw [hq]
      by_cases hlast : q + 1 < 2 ^ 24
      · exact roundNatF32_mul_pow (q + 1) e hpos (by omega) hlast
      · have hq1 : q + 1 = 2 ^ 23 * 2 := by omega
        have : (q + 1) * 2 ^ e = 2 ^ 23 * 2 ^ (e + 1) := by
          rw [hq1, pow_succ]; ring
        rw [this]
        exact roundNatF32_mul_pow (2 ^ 23) (e + 1) (Nat.succ_pos _) le_rfl (by norm_num)

theorem roundF32_idem (v : Int) : roundF32 (roundF32 v) = roundF32 v := by
  unfold roundF32
  by_cases h : v < 0
  · simp only [h, if_true]
    by_cases h0 : roundNatF32 (-v).toNat = 0
    · simp [h0, roundNatF32_of_le 0 (by norm_num)]
    · have hneg : -((roundNatF32 (-v).toNat : Nat) : Int) < 0 := by omega
      simp only [hneg, if_true, neg_neg, Int.toNat_ofNat, roundNatF32_idem]
  · have hnn : ¬(((roundNatF32 v.toNat : Nat) : Int) < 0) := by omega
    simp only [h, if_false, hnn, Int.toNat_ofNat, roundNatF32_idem]

theorem roundF32_of_le (v : Int) (h0 : 0 ≤ v) (h : v ≤ 2 ^ 24) : roundF32 v = v := by
  unfold roundF32
  have hn : ¬(v < 0) := by omega
  have hle : v.toNat ≤ 2 ^ 24 := by
    have : ((2 : Int) ^ 24) = 16777216 := by norm_num
    have : ((2 : Nat) ^ 24) = 16777216 := by norm_num
    omega
  simp only [hn, if_false, roundNatF32_of_le _ hle]
  omega

theorem roundF32_zero : roundF32 0 = 0 := roundF32_of_le 0 le_rfl (by norm_num)

theorem floatAdd_zero_left (b : Int) : floatAdd 0 (roundF32 b) = roundF32 b := by
  unfold floatAdd
  rw [Int.zero_add, roundF32_idem]

theorem floatAdd_exact (a : Int) (n : Nat) (ha : 0 ≤ a) (h : a + n ≤ 2 ^ 24) :
    floatAdd a (ulongToFloat n) = a + n := by
  unfold floatAdd ulongToFloat
  rw [roundF32_of_le n (by omega) (by omega), roundF32_of_le _ (by omega) h]

theorem ulongSub_zero (a : Nat) (h : a < 2 ^ 64) : ulongSub a 0 = a := by
  unfold ulongSub
  have h64 : ((2 : Int) ^ 64) = 18446744073709551616 := by norm_num
  have h64' : ((2 : Nat) ^ 64) = 18446744073709551616 := by norm_num
  rw [h64]
  omega

/-- C4: when the requested region lies entirely inside the cached region (`IsInside`),
`GetMissingRegions` returns the empty list and `GenerateData` fetches nothing from upstream. -/
theorem C4_full_hit_no_fetch {Pixel : Type} (input : InputImage Pixel)
    (self : PrefetchCacheAsyncFilter Pixel) (R : RegionType)
    (h : self.m_CachedRegion.IsInside R = true) :
    (GetMissingRegions self R).1 = [] ∧ (GenerateData input self R).fetched = [] := by
  have e : missingRegions self.m_CachedRegion R = [] := by
    unfold missingRegions
    simp [h]
  exact ⟨e, e⟩

/-- C4 at a 2 x 2 request inside a 4 x 4 cached region. -/
theorem C4_full_hit_no_fetch_witness :
    (⟨0, 0, 4, 4⟩ : RegionType).IsInside ⟨1, 1, 2, 2⟩ = true ∧
    ((GetMissingRegions
        { PrefetchCacheAsyncFilter.New Unit with m_CachedRegion := ⟨0, 0, 4, 4⟩ }
        ⟨1, 1, 2, 2⟩).1 = [] ∧
      (GenerateData (⟨⟨0, 0, 8, 8⟩, fun _ => ()⟩ : InputImage Unit)
        { PrefetchCacheAsyncFilter.New Unit with m_CachedRegion := ⟨0, 0, 4, 4⟩ }
        ⟨1, 1, 2, 2⟩).fetched = []) :=
  ⟨by decide, C4_full_hit_no_fetch _
    { PrefetchCacheAsyncFilter.New Unit with m_CachedRegion := ⟨0, 0, 4, 4⟩ } ⟨1, 1, 2, 2⟩
    (by decide)⟩

theorem missingRegions_fresh (R : RegionType) : missingRegions ⟨0, 0, 0, 0⟩ R = [R] := by
  rcases missingRegions_cases ⟨0, 0, 0, 0⟩ R with ⟨hin, _⟩ | ⟨_, _, e⟩ | ⟨_, hK, _, _⟩
  · have h1 := (RegionType.isInside_iff _ R).1 hin
    simp only at h1
    omega
  · exact e
  · simp [RegionType.GetNumberOfPixels] at hK

theorem crop_fresh_pixels (R : RegionType) :
    ((⟨0, 0, 0, 0⟩ : RegionType).Crop R).2.GetNumberOfPixels = 0 := by
  by_cases ht : ((⟨0, 0, 0, 0⟩ : RegionType).Crop R).1 = true
  · obtain ⟨c1, c2, c3, c4⟩ := RegionType.crop_snd_of_touches _ R ht
    have htt := (RegionType.crop_fst_iff _ R).1 ht
    simp only at c2 htt
    have : ((⟨0, 0, 0, 0⟩ : RegionType).Crop R).2.sx = 0 := by omega
    simp [RegionType.GetNumberOfPixels, this]
  · simp only [Bool.not_eq_true] at ht
    rw [RegionType.crop_snd_of_not _ R ht]
    rfl

/-- C5 (amended): on a fresh filter the first `GetMissingRegions` returns `[R]` for every `R`,
leaves `m_GoodGuesses` and `m_ExtraGuesses` unchanged, and sets `m_MissedGuesses` to the pixel
count of `R` rounded to single precision, which is the pixel count itself up to `2 ^ 24`. -/
theorem C5_cold_cache_total_miss (Pixel : Type) (R : RegionType) :
    (GetMissingRegions (PrefetchCacheAsyncFilter.New Pixel) R).1 = [R] ∧
    (GetMissingRegions (PrefetchCacheAsyncFilter.New Pixel) R).2.m_GoodGuesses =
      (PrefetchCacheAsyncFilter.New Pixel).m_GoodGuesses ∧
    (GetMissingRegions (PrefetchCacheAsyncFilter.New Pixel) R).2.m_ExtraGuesses =
      (PrefetchCacheAsyncFilter.New Pixel).m_ExtraGuesses ∧
    (R.GetNumberOfPixels < 2 ^ 64 →
      (GetMissingRegions (PrefetchCacheAsyncFilter.New Pixel) R).2.m_MissedGuesses =
        roundF32 R.GetNumberOfPixels) ∧
    (R.GetNumberOfPixels ≤ 2 ^ 24 →
      (GetMissingRegions (PrefetchCacheAsyncFilter.New Pixel) R).2.m_MissedGuesses =
        (PrefetchCacheAsyncFilter.New Pixel).m_MissedGuesses + R.GetNumberOfPixels) := by
  have hz := crop_fresh_pixels R
  have hK : (⟨0, 0, 0, 0⟩ : RegionType).GetNumberOfPixels = 0 := rfl
  have hmiss : R.GetNumberOfPixels < 2 ^ 64 →
      (GetMissingRegions (PrefetchCacheAsyncFilter.New Pixel) R).2.m_MissedGuesses =
        roundF32 R.GetNumberOfPixels := by
    intro hlt
    simp only [GetMissingRegions, updateMetrics, PrefetchCacheAsyncFilter.New, hz, hK]
    split
    · simp only [ulongToFloat, ulongSub_zero _ hlt, floatAdd_zero_left]
    · simp only [ulongToFloat, floatAdd_zero_left]
  refine ⟨missingRegions_fresh R, ?_, ?_, hmiss, ?_⟩
  · simp only [GetMissingRegions, updateMetrics, PrefetchCacheAsyncFilter.New, hz]
    split
    · simp only [ulongToFloat, Nat.cast_zero, roundF32_zero, floatAdd, Int.add_zero]
    · rfl
  · simp only [GetMissingRegions, updateMetrics, PrefetchCacheAsyncFilter.New, hz, hK]
    split
    · simp only [ulongToFloat, Nat.cast_zero, roundF32_zero, floatAdd, floatSub, Int.add_zero,
        Int.sub_zero]
    · simp only [ulongToFloat, Nat.cast_zero, roundF32_zero, floatAdd, Int.add_zero]
  · intro hle
    have h64 : ((2 : Nat) ^ 24) < 2 ^ 64 := by norm_num
    rw [hmiss (by omega)]
    rw [roundF32_of_le _ (by omega) (by exact_mod_cast hle)]
    simp [PrefetchCacheAsyncFilter.New]

/-- C5 (amended) at a 256 x 256 region straddling the origin. -/
theorem C5_cold_cache_total_miss_witness :
    (⟨-128, -128, 256, 256⟩ : RegionType).GetNumberOfPixels ≤ 2 ^ 24 ∧
    (GetMissingRegions (PrefetchCacheAsyncFilter.New Unit) ⟨-128, -128, 256, 256⟩).2.m_MissedGuesses
      = (PrefetchCacheAsyncFilter.New Unit).m_MissedGuesses +
        (⟨-128, -128, 256, 256⟩ : RegionType).GetNumberOfPixels :=
  ⟨by decide, (C5_cold_cache_total_miss Unit ⟨-128, -128, 256, 256⟩).2.2.2.2 (by decide)⟩

/-- C5 as stated fails: for a 4097 x 4097 request the single-precision accumulator does not
grow by the 16785409 pixels of the request (it holds 16785408). -/
theorem C5_counterexample :
    (GetMissingRegions (PrefetchCacheAsyncFilter.New Unit) ⟨0, 0, 4097, 4097⟩).2.m_MissedGuesses
      ≠ (PrefetchCacheAsyncFilter.New Unit).m_MissedGuesses +
        (⟨0, 0, 4097, 4097⟩ : RegionType).GetNumberOfPixels := by
  decide

/-- C7: with a square previous region and a non-square current region, the region that
`GuessNextRegion` builds starts at `(0, current.y + (current.x - previous.x))` and has the
size of the previous region; `m_CachedRegion` is that region cropped by the input extent. -/
theorem C7_row_wrap_guess {Pixel : Type} (input : InputImage Pixel)
    (self : PrefetchCacheAsyncFilter Pixel) (current : RegionType)
    (h1 : IsSquare self.m_PreviousGeneratedRegion = true) (h2 : IsSquare current = false) :
    guessedRegion self.m_PreviousGeneratedRegion current =
      ⟨0, current.iy + (current.ix - self.m_PreviousGeneratedRegion.ix),
        self.m_PreviousGeneratedRegion.sx, self.m_PreviousGeneratedRegion.sy⟩ ∧
    (GuessNextRegion input self current).2.m_CachedRegion =
      ((⟨0, current.iy + (current.ix - self.m_PreviousGeneratedRegion.ix),
        self.m_PreviousGeneratedRegion.sx, self.m_PreviousGeneratedRegion.sy⟩ : RegionType).Crop
          input.LargestPossibleRegion).2 := by
  have e : guessedRegion self.m_PreviousGeneratedRegion current =
      ⟨0, current.iy + (current.ix - self.m_PreviousGeneratedRegion.ix),
        self.m_PreviousGeneratedRegion.sx, self.m_PreviousGeneratedRegion.sy⟩ := by
    simp [guessedRegion, h1, h2]
  exact ⟨e, by simp only [GuessNextRegion, e]⟩

/-- C7 at the last tile of a 4000-pixel-wide row: previous 256 x 256 at (3584, 512), current
160 x 256 at (3840, 512); the guess starts at (0, 768) with size 256 x 256. -/
theorem C7_row_wrap_guess_witness :
    IsSquare ⟨3584, 512, 256, 256⟩ = true ∧ IsSquare ⟨3840, 512, 160, 256⟩ = false ∧
    guessedRegion ⟨3584, 512, 256, 256⟩ ⟨3840, 512, 160, 256⟩ = ⟨0, 768, 256, 256⟩ ∧
    (GuessNextRegion (⟨⟨0, 0, 4000, 4000⟩, fun _ => ()⟩ : InputImage Unit)
        { PrefetchCacheAsyncFilter.New Unit with
          m_PreviousGeneratedRegion := ⟨3584, 512, 256, 256⟩ }
        ⟨3840, 512, 160, 256⟩).2.m_CachedRegion =
      ((⟨0, 768, 256, 256⟩ : RegionType).Crop ⟨0, 0, 4000, 4000⟩).2 :=
  ⟨by decide, by decide,
    C7_row_wrap_guess (⟨⟨0, 0, 4000, 4000⟩, fun _ => ()⟩ : InputImage Unit)
      { PrefetchCacheAsyncFilter.New Unit with
        m_PreviousGeneratedRegion := ⟨3584, 512, 256, 256⟩ }
      ⟨3840, 512, 160, 256⟩ (by decide) (by decide)⟩

theorem updateMetrics_processed {Pixel : Type} (self : PrefetchCacheAsyncFilter Pixel)
    (R : RegionType) :
    (updateMetrics self R).m_NbOfProcessedPixels =
      floatAdd self.m_NbOfProcessedPixels (ulongToFloat R.GetNumberOfPixels) := by
  unfold updateMetrics
  simp only
  split <;> rfl

theorem updateMetrics_regions {Pixel : Type} (self : PrefetchCacheAsyncFilter Pixel)
    (R : RegionType) :
    (updateMetrics self R).m_CachedRegion = self.m_CachedRegion ∧
    (updateMetrics self R).m_CachedBuffer = self.m_CachedBuffer ∧
    (updateMetrics self R).m_PreviousGeneratedRegion = self.m_PreviousGeneratedRegion := by
  unfold updateMetrics
  simp only
  split <;> exact ⟨rfl, rfl, rfl⟩

theorem GetNextRegion_metrics {Pixel : Type} (input : InputImage Pixel)
    (self : PrefetchCacheAsyncFilter Pixel) (R : RegionType) :
    (GetNextRegion input self R).1.m_NbOfProcessedPixels = self.m_NbOfProcessedPixels ∧
    (GetNextRegion input self R).1.m_GoodGuesses = self.m_GoodGuesses ∧
    (GetNextRegion input self R).1.m_MissedGuesses = self.m_MissedGuesses ∧
    (GetNextRegion input self R).1.m_ExtraGuesses = self.m_ExtraGuesses := by
  unfold GetNextRegion GuessNextRegion
  simp only
  split_ifs <;> exact ⟨rfl, rfl, rfl, rfl⟩

theorem mem_axisIndices (s : Nat) : ∀ (i v : Int),
    v ∈ RegionType.axisIndices i s ↔ i ≤ v ∧ v < i + s := by
  induction s with
  | zero =>
    intro i v
    simp only [RegionType.axisIndices, List.not_mem_nil, false_iff]
    omega
  | succ s ih =>
    intro i v
    simp only [RegionType.axisIndices, List.mem_cons, ih]
    omega

theorem mem_indices (r : RegionType) (p : IndexType) :
    p ∈ r.indices ↔ r.IsInsideIndex p = true := by
  simp only [RegionType.indices, List.mem_flatMap, List.mem_map, mem_axisIndices,
    RegionType.isInsideIndex_iff]
  constructor
  · rintro ⟨y, hy, x, hx, rfl⟩
    exact ⟨hx.1, hx.2, hy.1, hy.2⟩
  · intro h
    exact ⟨p.y, ⟨h.2.2.1, h.2.2.2⟩, p.x, ⟨h.1, h.2.1⟩, rfl⟩

theorem copy_foldl_spec {Pixel : Type} (input : InputImage Pixel) (l : List IndexType) :
    ∀ img : ImageType Pixel,
    (l.foldl (fun buffer p => buffer.SetPixel p (some (input.value p))) img).BufferedRegion =
      img.BufferedRegion ∧
    (∀ q, q ∈ l →
      (l.foldl (fun buffer p => buffer.SetPixel p (some (input.value p))) img).pixel q =
        some (input.value q)) ∧
    (∀ q, q ∉ l →
      (l.foldl (fun buffer p => buffer.SetPixel p (some (input.value p))) img).pixel q =
        img.pixel q) := by
  induction l with
  | nil =>
    intro img
    exact ⟨rfl, fun q hq => absurd hq (List.not_mem_nil q), fun q _ => rfl⟩
  | cons a l ih =>
    intro img
    obtain ⟨h1, h2, h3⟩ := ih (img.SetPixel a (some (input.value a)))
    simp only [List.foldl_cons]
    refine ⟨h1, ?_, ?_⟩
    · intro q hq
      by_cases hql : q ∈ l
      · exact h2 q hql
      · rw [h3 q hql]
        have : q = a := by
          rcases List.mem_cons.1 hq with h | h
          · exact h
          · exact absurd h hql
        subst this
        simp [ImageType.SetPixel]
    · intro q hq
      rw [List.mem_cons, not_or] at hq
      rw [h3 q hq.2]
      simp [ImageType.SetPixel, hq.1]

theorem GetImageRegion_spec {Pixel : Type} (input : InputImage Pixel) (region : RegionType) :
    (GetImageRegion input region).BufferedRegion = region ∧
    ∀ p, region.IsInsideIndex p = true →
      (GetImageRegion input region).pixel p = some (input.value p) := by
  obtain ⟨h1, h2, _⟩ := copy_foldl_spec input region.indices ⟨region, fun _ => none⟩
  exact ⟨h1, fun p hp => h2 p ((mem_indices region p).2 hp)⟩

theorem zip_iterators {Pixel : Type} (regs : List RegionType) :
    ∀ bufs : List (Option (ImageType Pixel)),
    regs.zip ((bufs.zip regs).map fun br => (⟨br.1, br.2.indices⟩ : ConstIteratorType Pixel)) =
      (regs.zip bufs).map fun rb => (rb.1, (⟨rb.2, rb.1.indices⟩ : ConstIteratorType Pixel)) := by
  induction regs with
  | nil => intro bufs; simp
  | cons r regs ih =>
    intro bufs
    cases bufs with
    | nil => simp
    | cons b bufs => simp [ih]

theorem zip_fetched {Pixel : Type} (input : InputImage Pixel) (missing : List RegionType) :
    missing.zip ((missing.map fun region => GetImageRegion input region).map some) =
      missing.map fun region => (region, some (GetImageRegion input region)) := by
  induction missing with
  | nil => rfl
  | cons r rest ih =>
    simp only [List.map_cons, List.zip_cons_cons, ih]

theorem GenerateData_output {Pixel : Type} (input : InputImage Pixel)
    (self : PrefetchCacheAsyncFilter Pixel) (R : RegionType) :
    (GenerateData input self R).output =
      fillOutput R.indices
        ((missingRegions self.m_CachedRegion R).map (fun region =>
            (region, (⟨some (GetImageRegion input region), region.indices⟩ :
              ConstIteratorType Pixel))) ++
          if (self.m_CachedRegion.Crop R).2.GetNumberOfPixels > 0 then
            [((self.m_CachedRegion.Crop R).2,
              (⟨self.m_CachedBuffer, (self.m_CachedRegion.Crop R).2.indices⟩ :
                ConstIteratorType Pixel))]
          else [])
        ⟨R, fun _ => none⟩ := by
  obtain ⟨e1, e2, _⟩ := updateMetrics_regions self R
  unfold GenerateData
  simp only [GetMissingRegions, e1, e2]
  congr 1
  split_ifs with h
  · rw [zip_iterators, List.zip_append (by simp), zip_fetched]
    simp
  · rw [zip_iterators, zip_fetched]
    simp

/-! ## Correctness of the output -/

theorem region_pos_of_mem (r : RegionType) (p : IndexType) (h : r.IsInsideIndex p = true) :
    0 < r.GetNumberOfPixels := by
  rw [RegionType.numberOfPixels_pos_iff]
  rw [RegionType.isInsideIndex_iff] at h
  omega

theorem crop_bounds (K R : RegionType) (ht : (K.Crop R).1 = true) :
    R.ix ≤ (K.Crop R).2.ix ∧ (K.Crop R).2.ix + (K.Crop R).2.sx ≤ R.ix + R.sx ∧
    R.iy ≤ (K.Crop R).2.iy ∧ (K.Crop R).2.iy + (K.Crop R).2.sy ≤ R.iy + R.sy := by
  obtain ⟨c1, c2, c3, c4⟩ := RegionType.crop_snd_of_touches K R ht
  have hx := le_max_right K.ix R.ix
  have hy := le_max_right K.iy R.iy
  have hx' := min_le_right (K.ix + K.sx) (R.ix + R.sx)
  have hy' := min_le_right (K.iy + K.sy) (R.iy + R.sy)
  generalize max K.ix R.ix = a at *
  generalize max K.iy R.iy = b at *
  generalize min (K.ix + K.sx) (R.ix + R.sx) = c at *
  generalize min (K.iy + K.sy) (R.iy + R.sy) = d at *
  omega

theorem crop_of_inside (L A : RegionType) (h : L.IsInside A = true) : A.Crop L = (true, A) := by
  have hb := (RegionType.isInside_iff L A).1 h
  have hx1 : ¬(A.ix < L.ix) := by omega
  have hy1 : ¬(A.iy < L.iy) := by omega
  have hx2 : ¬(A.ix + (A.sx : Int) > L.ix + L.sx) := by omega
  have hy2 : ¬(A.iy + (A.sy : Int) > L.iy + L.sy) := by omega
  have hpx : RegionType.cropPossibleAxis A.ix A.sx L.ix L.sx = true := by
    simp only [RegionType.cropPossibleAxis, Bool.and_eq_true, Bool.not_eq_true',
      decide_eq_false_iff_not]
    omega
  have hpy : RegionType.cropPossibleAxis A.iy A.sy L.iy L.sy = true := by
    simp only [RegionType.cropPossibleAxis, Bool.and_eq_true, Bool.not_eq_true',
      decide_eq_false_iff_not]
    omega
  simp only [RegionType.Crop, hpx, hpy, Bool.and_self, if_true, RegionType.cropAxis, hx1, hy1,
    hx2, hy2, if_false]

theorem GetNextRegion_cached_of_inside {Pixel : Type} (input : InputImage Pixel)
    (self : PrefetchCacheAsyncFilter Pixel) (R : RegionType)
    (h : input.LargestPossibleRegion.IsInside (guessedRegion self.m_PreviousGeneratedRegion R)
      = true) :
    (GetNextRegion input self R).1.m_CachedRegion =
      guessedRegion self.m_PreviousGeneratedRegion R := by
  have hc := crop_of_inside _ _ h
  have hb := (RegionType.isInside_iff _ _).1 h
  have hpos : 0 < (guessedRegion self.m_PreviousGeneratedRegion R).GetNumberOfPixels :=
    (RegionType.numberOfPixels_pos_iff _).2 ⟨hb.1, hb.2.1⟩
  simp only [GetNextRegion, GuessNextRegion, hc, hpos, if_true]

theorem GetNextRegion_previous {Pixel : Type} (input : InputImage Pixel)
    (self : PrefetchCacheAsyncFilter Pixel) (R : RegionType) :
    (GetNextRegion input self R).1.m_PreviousGeneratedRegion = R := rfl

theorem GenerateData_filter {Pixel : Type} (input : InputImage Pixel)
    (self : PrefetchCacheAsyncFilter Pixel) (R : RegionType) :
    (GenerateData input self R).filter = updateMetrics self R := rfl

theorem indices_of_no_pixels (R : RegionType) (h : R.GetNumberOfPixels = 0) : R.indices = [] := by
  rw [List.eq_nil_iff_forall_not_mem]
  intro p hp
  have := region_pos_of_mem R p ((mem_indices R p).1 hp)
  omega

theorem missingRegions_no_pixels (K R : RegionType) (h : R.GetNumberOfPixels = 0) :
    ∀ A ∈ missingRegions K R, A.GetNumberOfPixels = 0 := by
  intro A hA
  rcases missingRegions_cases K R with ⟨_, e⟩ | ⟨_, _, e⟩ | ⟨_, hK, ht, e⟩
  · rw [e] at hA
    exact absurd hA (List.not_mem_nil A)
  · rw [e, List.mem_singleton] at hA
    rw [hA]
    exact h
  · rw [e] at hA
    obtain ⟨x, hx, y, hy, _, rfl⟩ := (mem_collectRegions _ _ A).1 hA
    have htt := (RegionType.crop_fst_iff K R).1 ht
    obtain ⟨lo, hi, hxc⟩ := dimSplits_mem_cases _ _ _ _ x hx
    obtain ⟨lo', hi', hyc⟩ := dimSplits_mem_cases _ _ _ _ y hy
    simp only [RegionType.GetNumberOfPixels, Nat.mul_eq_zero] at h ⊢
    rcases h with h | h
    · left
      omega
    · right
      omega

/-- C9 (amended): for a requested region with no pixel, whatever the cache, the output of
`GenerateData` has the requested region as buffered region and no pixel written, and every
region fetched from upstream (every region returned by `GetMissingRegions`) has no pixel. -/
theorem C9_zero_area_request {Pixel : Type} (input : InputImage Pixel)
    (self : PrefetchCacheAsyncFilter Pixel) (R : RegionType) (h : R.GetNumberOfPixels = 0) :
    (GenerateData input self R).output.BufferedRegion = R ∧
    (∀ p, (GenerateData input self R).output.pixel p = none) ∧
    (∀ A ∈ (GenerateData input self R).fetched, A.GetNumberOfPixels = 0) ∧
    (∀ A ∈ (GetMissingRegions self R).1, A.GetNumberOfPixels = 0) := by
  refine ⟨?_, ?_, missingRegions_no_pixels _ R h, missingRegions_no_pixels _ R h⟩
  · rw [GenerateData_output, indices_of_no_pixels R h]
    rfl
  · intro p
    rw [GenerateData_output, indices_of_no_pixels R h]
    rfl

/-- C9 (amended) at a 0 x 5 request whose start lies inside a 4 x 4 cached region. -/
theorem C9_zero_area_request_witness :
    (⟨2, 2, 0, 5⟩ : RegionType).GetNumberOfPixels = 0 ∧
    (∀ A ∈ (GetMissingRegions
        { PrefetchCacheAsyncFilter.New Unit with m_CachedRegion := ⟨0, 0, 4, 4⟩ }
        ⟨2, 2, 0, 5⟩).1, A.GetNumberOfPixels = 0) :=
  ⟨by decide, (C9_zero_area_request (⟨⟨0, 0, 8, 8⟩, fun _ => ()⟩ : InputImage Unit)
    { PrefetchCacheAsyncFilter.New Unit with m_CachedRegion := ⟨0, 0, 4, 4⟩ }
    ⟨2, 2, 0, 5⟩ (by decide)).2.2.2⟩

/-- C9 as stated fails: on a fresh filter the zero-area request `0 x 0` at the origin makes
`GetMissingRegions` return the request itself, and `GenerateData` fetches it from upstream. -/
theorem C9_counterexample :
    (⟨0, 0, 0, 0⟩ : RegionType).GetNumberOfPixels = 0 ∧
    (GetMissingRegions (PrefetchCacheAsyncFilter.New Unit) ⟨0, 0, 0, 0⟩).1 = [⟨0, 0, 0, 0⟩] ∧
    (GenerateData (⟨⟨0, 0, 8, 8⟩, fun _ => ()⟩ : InputImage Unit)
      (PrefetchCacheAsyncFilter.New Unit) ⟨0, 0, 0, 0⟩).fetched ≠ [] := by
  decide

/-! ## Number of missing regions -/

theorem length_row (x : RegionSlice1D) (Y : List RegionSlice1D) :
    ((Y.filter fun y => !x.cached || !y.cached).map fun y =>
        (⟨x.start, y.start, x.size, y.size⟩ : RegionType)).length +
      (if x.cached = true then (Y.filter RegionSlice1D.cached).length else 0) = Y.length := by
  induction Y with
  | nil => simp
  | cons y Y ih =>
    cases hx : x.cached <;> cases hy : y.cached <;>
      simp [hx, hy, List.filter_cons] at ih ⊢ <;> omega

theorem length_collectRegions (X Y : List RegionSlice1D) :
    (collectRegions X Y).length +
        (X.filter RegionSlice1D.cached).length * (Y.filter RegionSlice1D.cached).length =
      X.length * Y.length := by
  induction X with
  | nil => simp [collectRegions]
  | cons x X ih =>
    have hrow := length_row x Y
    have e1 : (collectRegions (x :: X) Y).length =
        ((Y.filter fun y => !x.cached || !y.cached).map fun y =>
          (⟨x.start, y.start, x.size, y.size⟩ : RegionType)).length +
        (collectRegions X Y).length := by
      simp [collectRegions]
    have e3 : ((x :: X).filter RegionSlice1D.cached).length =
        (if x.cached = true then 1 else 0) + (X.filter RegionSlice1D.cached).length := by
      cases hx : x.cached <;> simp [List.filter_cons, hx]
      omega
    rw [e1, e3, List.length_cons, Nat.add_mul, Nat.add_mul, ← ih, ← hrow]
    split_ifs <;> ring

theorem dimSplits_lengths (o oe c ce : Int) :
    (dimSplits o oe c ce).length =
      1 + ((if o < c then 1 else 0) + (if ce < oe then 1 else 0)) ∧
    ((dimSplits o oe c ce).filter RegionSlice1D.cached).length = 1 := by
  rw [dimSplits_eq]
  split_ifs <;> simp [List.filter_cons]

theorem missingRegions_length (K R : RegionType) (h1 : K.IsInside R = false)
    (h2 : 0 < K.GetNumberOfPixels) (h3 : (K.Crop R).1 = true) :
    (missingRegions K R).length + 1 =
      (1 + ((if R.ix < K.ix then 1 else 0) + (if K.ix + K.sx < R.ix + R.sx then 1 else 0))) *
      (1 + ((if R.iy < K.iy then 1 else 0) + (if K.iy + K.sy < R.iy + R.sy then 1 else 0))) := by
  rcases missingRegions_cases K R with ⟨hin, _⟩ | ⟨_, hK, _⟩ | ⟨_, _, _, e⟩
  · rw [h1] at hin
    exact absurd hin (by simp)
  · rcases hK with hK | hK
    · omega
    · rw [h3] at hK
      exact absurd hK (by simp)
  · have hl := length_collectRegions
      (dimSplits R.ix (R.ix + R.sx - 1) K.ix (K.ix + K.sx - 1))
      (dimSplits R.iy (R.iy + R.sy - 1) K.iy (K.iy + K.sy - 1))
    rw [(dimSplits_lengths _ _ _ _).1, (dimSplits_lengths _ _ _ _).2,
      (dimSplits_lengths _ _ _ _).1, (dimSplits_lengths _ _ _ _).2] at hl
    have cx : (K.ix + (K.sx : Int) - 1 < R.ix + R.sx - 1) ↔ (K.ix + (K.sx : Int) < R.ix + R.sx) := by
      omega
    have cy : (K.iy + (K.sy : Int) - 1 < R.iy + R.sy - 1) ↔ (K.iy + (K.sy : Int) < R.iy + R.sy) := by
      omega
    simp only [cx, cy] at hl
    rw [e]
    simpa using hl

theorem missingRegions_minimal_simple (K R : RegionType) (hR : 0 < R.GetNumberOfPixels)
    (h : K.IsInside R = true ∨ K.GetNumberOfPixels = 0 ∨ (K.Crop R).1 = false)
    (L : List RegionType) (hL : IsDisjointCover L R K) :
    (missingRegions K R).length ≤ L.length := by
  have hRp := (RegionType.numberOfPixels_pos_iff R).1 hR
  rcases missingRegions_cases K R with ⟨_, e⟩ | ⟨_, hK, e⟩ | ⟨h1, h2, h3, _⟩
  · rw [e]
    exact Nat.zero_le _
  · rw [e]
    have hp : R.IsInsideIndex ⟨R.ix, R.iy⟩ = true := by
      rw [RegionType.isInsideIndex_iff]
      simp only
      omega
    have hk : K.IsInsideIndex ⟨R.ix, R.iy⟩ = false := by
      rw [← Bool.not_eq_true, RegionType.isInsideIndex_iff]
      simp only
      rcases hK with hK | hK
      · have : ¬(0 < K.GetNumberOfPixels) := by omega
        rw [RegionType.numberOfPixels_pos_iff] at this
        omega
      · have : ¬((K.Crop R).1 = true) := by simp [hK]
        rw [RegionType.crop_fst_iff] at this
        omega
    obtain ⟨A, hA, _⟩ := (hL.2 ⟨R.ix, R.iy⟩).2 ⟨hp, hk⟩
    exact List.length_pos_of_mem hA
  · exfalso
    rcases h with h | h | h
    · rw [h1] at h
      exact absurd h (by simp)
    · omega
    · rw [h3] at h
      exact absurd h (by simp)

/-- C10 (amended): for a non-empty request, the list returned by `GetMissingRegions` has the
minimum number of rectangles among the disjoint covers of `R` without `K` when `R` lies inside
`K`, when `K` has no pixel and when `K` does not overlap `R`; when `K` overlaps `R` without
containing it the list has `(1 + a) (1 + b) - 1` rectangles, `a` and `b` counting the sides of
`R` that stick out of `K` along `x` and along `y`. -/
theorem C10_rectangle_count {Pixel : Type} (self : PrefetchCacheAsyncFilter Pixel)
    (R : RegionType) (hR : 0 < R.GetNumberOfPixels) :
    ((self.m_CachedRegion.IsInside R = true ∨ self.m_CachedRegion.GetNumberOfPixels = 0 ∨
        (self.m_CachedRegion.Crop R).1 = false) →
      ∀ L, IsDisjointCover L R self.m_CachedRegion →
        (GetMissingRegions self R).1.length ≤ L.length) ∧
    (self.m_CachedRegion.IsInside R = false → 0 < self.m_CachedRegion.GetNumberOfPixels →
      (self.m_CachedRegion.Crop R).1 = true →
      (GetMissingRegions self R).1.length + 1 =
        (1 + ((if R.ix < self.m_CachedRegion.ix then 1 else 0) +
          (if self.m_CachedRegion.ix + self.m_CachedRegion.sx < R.ix + R.sx then 1 else 0))) *
        (1 + ((if R.iy < self.m_CachedRegion.iy then 1 else 0) +
          (if self.m_CachedRegion.iy + self.m_CachedRegion.sy < R.iy + R.sy then 1 else 0)))) :=
  ⟨fun h L hL => missingRegions_minimal_simple _ R hR h L hL,
    fun h1 h2 h3 => missingRegions_length _ R h1 h2 h3⟩

/-- C10 (amended) at a 2 x 2 cached region strictly inside a 6 x 6 request: 3 * 3 - 1 = 8
rectangles. -/
theorem C10_rectangle_count_witness :
    0 < (⟨0, 0, 6, 6⟩ : RegionType).GetNumberOfPixels ∧
    (⟨2, 2, 2, 2⟩ : RegionType).IsInside ⟨0, 0, 6, 6⟩ = false ∧
    0 < (⟨2, 2, 2, 2⟩ : RegionType).GetNumberOfPixels ∧
    ((⟨2, 2, 2, 2⟩ : RegionType).Crop ⟨0, 0, 6, 6⟩).1 = true ∧
    (GetMissingRegions
        { PrefetchCacheAsyncFilter.New Unit with m_CachedRegion := ⟨2, 2, 2, 2⟩ }
        ⟨0, 0, 6, 6⟩).1.length + 1 = (1 + (1 + 1)) * (1 + (1 + 1)) :=
  ⟨by decide, by decide, by decide, by decide,
    (C10_rectangle_count
      { PrefetchCacheAsyncFilter.New Unit with m_CachedRegion := ⟨2, 2, 2, 2⟩ }
      ⟨0, 0, 6, 6⟩ (by decide)).2 (by decide) (by decide) (by decide)⟩

/-- C10 as stated fails: with a 2 x 2 cached region strictly inside a 6 x 6 request, four
disjoint rectangles cover the request without the cache, while `GetMissingRegions` returns
eight. -/
theorem C10_counterexample :
    IsDisjointCover [⟨0, 0, 6, 2⟩, ⟨0, 4, 6, 2⟩, ⟨0, 2, 2, 2⟩, ⟨4, 2, 2, 2⟩]
      ⟨0, 0, 6, 6⟩ ⟨2, 2, 2, 2⟩ ∧
    [(⟨0, 0, 6, 2⟩ : RegionType), ⟨0, 4, 6, 2⟩, ⟨0, 2, 2, 2⟩, ⟨4, 2, 2, 2⟩].length <
      (GetMissingRegions
        { PrefetchCacheAsyncFilter.New Unit with m_CachedRegion := ⟨2, 2, 2, 2⟩ }
        ⟨0, 0, 6, 6⟩).1.length := by
  refine ⟨⟨?_, ?_⟩, by decide⟩
  · simp only [List.pairwise_cons, List.mem_cons, List.mem_singleton, List.not_mem_nil,
      forall_eq_or_imp, forall_eq, false_imp_iff, implies_true, and_true, List.Pairwise.nil,
      RegionType.DisjointFrom, RegionType.isInsideIndex_iff]
    refine ⟨⟨?_, ?_, ?_⟩, ⟨?_, ?_⟩, ?_⟩ <;> intro p <;> simp only [Nat.cast_ofNat] <;> omega
  · intro p
    simp only [List.mem_cons, List.mem_singleton, List.not_mem_nil, or_false, exists_eq_or_imp,
      exists_eq_left, ← Bool.not_eq_true, RegionType.isInsideIndex_iff, Nat.cast_ofNat]
    omega

/-! ## Failed guesses, row wraps, first prefetch, size of the decomposition -/

theorem missingRegions_of_no_pixels (K R : RegionType) (h : K.GetNumberOfPixels = 0) :
    missingRegions K R = [R] := by
  rcases missingRegions_cases K R with ⟨hin, _⟩ | ⟨_, _, e⟩ | ⟨_, hK, _, _⟩
  · have h1 := (RegionType.isInside_iff K R).1 hin
    have h2 : ¬(0 < K.GetNumberOfPixels) := by omega
    rw [RegionType.numberOfPixels_pos_iff] at h2
    omega
  · exact e
  · omega

/-- C12: when the region guessed by `GuessNextRegion` does not overlap the upstream extent
(`Crop` returns false), the cached region has no pixel after `GetNextRegion`, that step
fetched nothing from upstream, and the next `GetMissingRegions` returns the request alone. -/
theorem C12_failed_guess_empties_cache {Pixel : Type} (input : InputImage Pixel)
    (self : PrefetchCacheAsyncFilter Pixel) (current : RegionType)
    (h : ((guessedRegion self.m_PreviousGeneratedRegion current).Crop
      input.LargestPossibleRegion).1 = false) :
    (GetNextRegion input self current).1.m_CachedRegion.GetNumberOfPixels = 0 ∧
    (GetNextRegion input self current).2 = [] ∧
    ∀ R, (GetMissingRegions (GetNextRegion input self current).1 R).1 = [R] := by
  have hz : (GetNextRegion input self current).1.m_CachedRegion.GetNumberOfPixels = 0 ∧
      (GetNextRegion input self current).2 = [] := by
    simp only [GetNextRegion, GuessNextRegion]
    split_ifs with h1 h2
    · rw [h] at h2
      exact absurd h2 (by simp)
    · exact ⟨rfl, rfl⟩
    · exact ⟨by simpa using h1, rfl⟩
  exact ⟨hz.1, hz.2, fun R => missingRegions_of_no_pixels _ R hz.1⟩

/-- C12 with a guess to the right of a 512 x 512 image. -/
theorem C12_failed_guess_empties_cache_witness :
    ((guessedRegion ⟨0, 0, 256, 256⟩ ⟨256, 0, 256, 256⟩).Crop ⟨0, 0, 512, 512⟩).1 = false ∧
    (GetNextRegion (⟨⟨0, 0, 512, 512⟩, fun _ => ()⟩ : InputImage Unit)
        { PrefetchCacheAsyncFilter.New Unit with
          m_PreviousGeneratedRegion := ⟨0, 0, 256, 256⟩ }
        ⟨256, 0, 256, 256⟩).1.m_CachedRegion.GetNumberOfPixels = 0 ∧
    (GetNextRegion (⟨⟨0, 0, 512, 512⟩, fun _ => ()⟩ : InputImage Unit)
        { PrefetchCacheAsyncFilter.New Unit with
          m_PreviousGeneratedRegion := ⟨0, 0, 256, 256⟩ }
        ⟨256, 0, 256, 256⟩).2 = [] :=
  ⟨by decide,
    (C12_failed_guess_empties_cache (⟨⟨0, 0, 512, 512⟩, fun _ => ()⟩ : InputImage Unit)
      { PrefetchCacheAsyncFilter.New Unit with m_PreviousGeneratedRegion := ⟨0, 0, 256, 256⟩ }
      ⟨256, 0, 256, 256⟩ (by decide)).1,
    (C12_failed_guess_empties_cache (⟨⟨0, 0, 512, 512⟩, fun _ => ()⟩ : InputImage Unit)
      { PrefetchCacheAsyncFilter.New Unit with m_PreviousGeneratedRegion := ⟨0, 0, 256, 256⟩ }
      ⟨256, 0, 256, 256⟩ (by decide)).2.1⟩

/-- C20: on a fresh filter, for a non-empty square region at index (0, 0) inside the upstream
extent, after the first `GenerateData` and its `GetNextRegion` step the cached region is that
region itself, and it is the one region the background step fetched. -/
theorem C20_first_prefetch_rereads_tile {Pixel : Type} (input : InputImage Pixel) (n : Nat)
    (h : input.LargestPossibleRegion.IsInside ⟨0, 0, n, n⟩ = true) :
    (Request input (PrefetchCacheAsyncFilter.New Pixel) ⟨0, 0, n, n⟩).1.m_CachedRegion =
      ⟨0, 0, n, n⟩ ∧
    (GetNextRegion input
      (GenerateData input (PrefetchCacheAsyncFilter.New Pixel) ⟨0, 0, n, n⟩).filter
      ⟨0, 0, n, n⟩).2 = [⟨0, 0, n, n⟩] := by
  have hprev : (GenerateData input (PrefetchCacheAsyncFilter.New Pixel)
      ⟨0, 0, n, n⟩).filter.m_PreviousGeneratedRegion = ⟨0, 0, 0, 0⟩ := by
    rw [GenerateData_filter, (updateMetrics_regions _ _).2.2]
    rfl
  have hg : guessedRegion ⟨0, 0, 0, 0⟩ ⟨0, 0, n, n⟩ = ⟨0, 0, n, n⟩ := by
    simp [guessedRegion, IsSquare]
  have hc := crop_of_inside _ _ h
  have hb := (RegionType.isInside_iff _ _).1 h
  have hpos : 0 < (⟨0, 0, n, n⟩ : RegionType).GetNumberOfPixels :=
    (RegionType.numberOfPixels_pos_iff _).2 ⟨hb.1, hb.2.1⟩
  constructor
  · simp only [Request]
    rw [GetNextRegion_cached_of_inside input _ _ (by rw [hprev, hg]; exact h), hprev, hg]
  · simp only [GetNextRegion, GuessNextRegion, hprev, hg, hc, hpos, if_true]

/-- C20 on a 256 x 256 tile of a 4000 x 4000 image. -/
theorem C20_first_prefetch_rereads_tile_witness :
    (⟨0, 0, 4000, 4000⟩ : RegionType).IsInside ⟨0, 0, 256, 256⟩ = true ∧
    (Request (⟨⟨0, 0, 4000, 4000⟩, fun _ => ()⟩ : InputImage Unit)
      (PrefetchCacheAsyncFilter.New Unit) ⟨0, 0, 256, 256⟩).1.m_CachedRegion =
      ⟨0, 0, 256, 256⟩ :=
  ⟨by decide,
    (C20_first_prefetch_rereads_tile (⟨⟨0, 0, 4000, 4000⟩, fun _ => ()⟩ : InputImage Unit)
      256 (by decide)).1⟩

theorem GetNextRegion_cache_invariant {Pixel : Type} (input : InputImage Pixel)
    (self : PrefetchCacheAsyncFilter Pixel) (R : RegionType) :
    (GetNextRegion input self R).1.m_CachedRegion.GetNumberOfPixels = 0 ∨
    (input.LargestPossibleRegion.IsInside (GetNextRegion input self R).1.m_CachedRegion = true ∧
      ∃ img, (GetNextRegion input self R).1.m_CachedBuffer = some img ∧
        img.BufferedRegion = (GetNextRegion input self R).1.m_CachedRegion ∧
        ∀ p, (GetNextRegion input self R).1.m_CachedRegion.IsInsideIndex p = true →
          img.pixel p = some (input.value p)) := by
  simp only [GetNextRegion, GuessNextRegion]
  split_ifs with h1 h2
  · refine Or.inr ⟨?_, _, rfl, (GetImageRegion_spec input _).1, (GetImageRegion_spec input _).2⟩
    have hb := crop_bounds _ _ h2
    have hp := (RegionType.numberOfPixels_pos_iff _).1 h1
    rw [RegionType.isInside_iff]
    exact ⟨hp.1, hp.2, hb.1, hb.2.1, hb.2.2.1, hb.2.2.2⟩
  · exact Or.inl rfl
  · exact Or.inl (by simpa using h1)

theorem runRequests_cache_invariant {Pixel : Type} (input : InputImage Pixel)
    (reqs : List RegionType) : ∀ self : PrefetchCacheAsyncFilter Pixel,
    (self.m_CachedRegion.GetNumberOfPixels = 0 ∨
      (input.LargestPossibleRegion.IsInside self.m_CachedRegion = true ∧
        ∃ img, self.m_CachedBuffer = some img ∧ img.BufferedRegion = self.m_CachedRegion ∧
          ∀ p, self.m_CachedRegion.IsInsideIndex p = true →
            img.pixel p = some (input.value p))) →
    ((runRequests input self reqs).1.m_CachedRegion.GetNumberOfPixels = 0 ∨
      (input.LargestPossibleRegion.IsInside (runRequests input self reqs).1.m_CachedRegion
          = true ∧
        ∃ img, (runRequests input self reqs).1.m_CachedBuffer = some img ∧
          img.BufferedRegion = (runRequests input self reqs).1.m_CachedRegion ∧
          ∀ p, (runRequests input self reqs).1.m_CachedRegion.IsInsideIndex p = true →
            img.pixel p = some (input.value p))) := by
  induction reqs with
  | nil => intro self h; exact h
  | cons R rest ih =>
    intro self _
    simp only [runRequests]
    exact ih _ (GetNextRegion_cache_invariant input _ R)

/-- C17: on a fresh filter, after every sequence of requests (each `GenerateData` followed by
its completed `GetNextRegion`), the cached region has no pixel, or it is a non-empty region
inside the upstream largest possible region and the cached buffer, whose buffered region it
is, holds the upstream pixel value at every index of it. -/
theorem C17_cache_invariant {Pixel : Type} (input : InputImage Pixel) (reqs : List RegionType) :
    (runRequests input (PrefetchCacheAsyncFilter.New Pixel) reqs).1.m_CachedRegion.GetNumberOfPixels
        = 0 ∨
    (0 < (runRequests input (PrefetchCacheAsyncFilter.New Pixel)
        reqs).1.m_CachedRegion.GetNumberOfPixels ∧
      input.LargestPossibleRegion.IsInside
        (runRequests input (PrefetchCacheAsyncFilter.New Pixel) reqs).1.m_CachedRegion = true ∧
      ∃ img, (runRequests input (PrefetchCacheAsyncFilter.New Pixel) reqs).1.m_CachedBuffer
          = some img ∧
        img.BufferedRegion =
          (runRequests input (PrefetchCacheAsyncFilter.New Pixel) reqs).1.m_CachedRegion ∧
        ∀ p, (runRequests input (PrefetchCacheAsyncFilter.New Pixel)
            reqs).1.m_CachedRegion.IsInsideIndex p = true →
          img.pixel p = some (input.value p)) := by
  rcases runRequests_cache_invariant input reqs (PrefetchCacheAsyncFilter.New Pixel)
    (Or.inl rfl) with h | ⟨h1, h2⟩
  · exact Or.inl h
  · have hb := (RegionType.isInside_iff _ _).1 h1
    exact Or.inr ⟨(RegionType.numberOfPixels_pos_iff _).2 ⟨hb.1, hb.2.1⟩, h1, h2⟩

theorem crop_pixels_le (K R : RegionType) (ht : (K.Crop R).1 = true) :
    (K.Crop R).2.GetNumberOfPixels ≤ K.GetNumberOfPixels ∧
    (K.Crop R).2.GetNumberOfPixels ≤ R.GetNumberOfPixels := by
  obtain ⟨c1, c2, c3, c4⟩ := RegionType.crop_snd_of_touches K R ht
  have hx := le_max_left K.ix R.ix
  have hx2 := le_max_right K.ix R.ix
  have hy := le_max_left K.iy R.iy
  have hy2 := le_max_right K.iy R.iy
  have hx' := min_le_left (K.ix + K.sx) (R.ix + R.sx)
  have hx2' := min_le_right (K.ix + K.sx) (R.ix + R.sx)
  have hy' := min_le_left (K.iy + K.sy) (R.iy + R.sy)
  have hy2' := min_le_right (K.iy + K.sy) (R.iy + R.sy)
  generalize max K.ix R.ix = a at *
  generalize max K.iy R.iy = b at *
  generalize min (K.ix + K.sx) (R.ix + R.sx) = c at *
  generalize min (K.iy + K.sy) (R.iy + R.sy) = d at *
  have s1 : (K.Crop R).2.sx ≤ K.sx := by omega
  have s2 : (K.Crop R).2.sy ≤ K.sy := by omega
  have s3 : (K.Crop R).2.sx ≤ R.sx := by omega
  have s4 : (K.Crop R).2.sy ≤ R.sy := by omega
  exact ⟨Nat.mul_le_mul s1 s2, Nat.mul_le_mul s3 s4⟩

theorem ulongSub_of_le (a b : Nat) (hba : b ≤ a) (ha : a < 2 ^ 64) : ulongSub a b = a - b := by
  unfold ulongSub
  have h64 : ((2 : Int) ^ 64) = 18446744073709551616 := by norm_num
  have h64' : ((2 : Nat) ^ 64) = 18446744073709551616 := by norm_num
  rw [h64]
  omega

theorem updateMetrics_balance {Pixel : Type} (self : PrefetchCacheAsyncFilter Pixel)
    (R : RegionType) (hg : 0 ≤ self.m_GoodGuesses) (hm : 0 ≤ self.m_MissedGuesses)
    (hsum : self.m_GoodGuesses + self.m_MissedGuesses = self.m_NbOfProcessedPixels)
    (hle : self.m_NbOfProcessedPixels + R.GetNumberOfPixels ≤ 2 ^ 24) :
    0 ≤ (updateMetrics self R).m_GoodGuesses ∧ 0 ≤ (updateMetrics self R).m_MissedGuesses ∧
    (updateMetrics self R).m_GoodGuesses + (updateMetrics self R).m_MissedGuesses =
      (updateMetrics self R).m_NbOfProcessedPixels ∧
    (updateMetrics self R).m_NbOfProcessedPixels =
      self.m_NbOfProcessedPixels + R.GetNumberOfPixels := by
  have hp := updateMetrics_processed self R
  rw [floatAdd_exact _ _ (by omega) hle] at hp
  have h24 : ((2 : Int) ^ 24) = 16777216 := by norm_num
  have h64 : ((2 : Nat) ^ 64) = 18446744073709551616 := by norm_num
  have hRlt : R.GetNumberOfPixels < 2 ^ 64 := by omega
  rw [hp]
  unfold updateMetrics
  simp only
  split
  · rename_i ht
    have hov := (crop_pixels_le self.m_CachedRegion R ht).2
    simp only [ulongSub_of_le _ _ hov hRlt]
    have e1 := floatAdd_exact self.m_GoodGuesses
      (self.m_CachedRegion.Crop R).2.GetNumberOfPixels hg (by omega)
    have e2 := floatAdd_exact self.m_MissedGuesses
      (R.GetNumberOfPixels - (self.m_CachedRegion.Crop R).2.GetNumberOfPixels) hm (by omega)
    rw [e1, e2]
    refine ⟨by omega, by omega, by omega, trivial⟩
  · simp only
    have e2 := floatAdd_exact self.m_MissedGuesses R.GetNumberOfPixels hm (by omega)
    rw [e2]
    refine ⟨by omega, by omega, by omega, trivial⟩

theorem runRequests_balance {Pixel : Type} (input : InputImage Pixel) (reqs : List RegionType) :
    ∀ self : PrefetchCacheAsyncFilter Pixel,
    0 ≤ self.m_GoodGuesses → 0 ≤ self.m_MissedGuesses →
    self.m_GoodGuesses + self.m_MissedGuesses = self.m_NbOfProcessedPixels →
    self.m_NbOfProcessedPixels + totalPixels reqs ≤ 2 ^ 24 →
    (runRequests input self reqs).1.m_GoodGuesses +
        (runRequests input self reqs).1.m_MissedGuesses =
      (runRequests input self reqs).1.m_NbOfProcessedPixels := by
  induction reqs with
  | nil =>
    intro self _ _ hsum _
    exact hsum
  | cons R rest ih =>
    intro self hg hm hsum hle
    have ht : totalPixels (R :: rest) = R.GetNumberOfPixels + totalPixels rest := by
      simp [totalPixels]
    rw [ht] at hle
    push_cast at hle
    obtain ⟨b1, b2, b3, b4⟩ := updateMetrics_balance self R hg hm hsum (by omega)
    obtain ⟨g1, g2, g3, _⟩ := GetNextRegion_metrics input (GenerateData input self R).filter R
    rw [GenerateData_filter] at g1 g2 g3
    simp only [runRequests]
    apply ih
    · simp only [Request]
      rw [GenerateData_filter, g2]
      exact b1
    · simp only [Request]
      rw [GenerateData_filter, g3]
      exact b2
    · simp only [Request]
      rw [GenerateData_filter, g1, g2, g3]
      exact b3
    · simp only [Request]
      rw [GenerateData_filter, g1, b4]
      omega

/-- C18 (amended): on a fresh filter, after any sequence of requests whose pixel counts add
up to at most `2 ^ 24`, `m_GoodGuesses + m_MissedGuesses` equals `m_NbOfProcessedPixels`
(beyond that bound the three single-precision accumulators round independently). -/
theorem C18_good_plus_missed_is_processed {Pixel : Type} (input : InputImage Pixel)
    (reqs : List RegionType) (h : totalPixels reqs ≤ 2 ^ 24) :
    (runRequests input (PrefetchCacheAsyncFilter.New Pixel) reqs).1.m_GoodGuesses +
        (runRequests input (PrefetchCacheAsyncFilter.New Pixel) reqs).1.m_MissedGuesses =
      (runRequests input (PrefetchCacheAsyncFilter.New Pixel) reqs).1.m_NbOfProcessedPixels :=
  runRequests_balance input reqs (PrefetchCacheAsyncFilter.New Pixel) le_rfl le_rfl rfl
    (by simp only [PrefetchCacheAsyncFilter.New]; exact_mod_cast (by omega))

/-- C18 (amended) on two overlapping requests: the cache left by the first one touches the
second. -/
theorem C18_good_plus_missed_is_processed_witness :
    totalPixels [⟨0, 0, 256, 256⟩, ⟨128, 0, 256, 256⟩] ≤ 2 ^ 24 ∧
    (runRequests (⟨⟨0, 0, 4000, 4000⟩, fun _ => ()⟩ : InputImage Unit)
        (PrefetchCacheAsyncFilter.New Unit)
        [⟨0, 0, 256, 256⟩, ⟨128, 0, 256, 256⟩]).1.m_GoodGuesses +
      (runRequests (⟨⟨0, 0, 4000, 4000⟩, fun _ => ()⟩ : InputImage Unit)
        (PrefetchCacheAsyncFilter.New Unit)
        [⟨0, 0, 256, 256⟩, ⟨128, 0, 256, 256⟩]).1.m_MissedGuesses =
      (runRequests (⟨⟨0, 0, 4000, 4000⟩, fun _ => ()⟩ : InputImage Unit)
        (PrefetchCacheAsyncFilter.New Unit)
        [⟨0, 0, 256, 256⟩, ⟨128, 0, 256, 256⟩]).1.m_NbOfProcessedPixels :=
  ⟨by decide, C18_good_plus_missed_is_processed _ _ (by decide)⟩

/-- C18 as stated fails: after a 4096 x 4096 request and a 1 x 1 request served from the
cache, good (1) plus missed (16777216) differs from processed (16777216). -/
theorem C18_counterexample :
    (runRequests (⟨⟨0, 0, 4096, 4096⟩, fun _ => ()⟩ : InputImage Unit)
        (PrefetchCacheAsyncFilter.New Unit)
        [⟨0, 0, 4096, 4096⟩, ⟨0, 0, 1, 1⟩]).1.m_GoodGuesses +
      (runRequests (⟨⟨0, 0, 4096, 4096⟩, fun _ => ()⟩ : InputImage Unit)
        (PrefetchCacheAsyncFilter.New Unit)
        [⟨0, 0, 4096, 4096⟩, ⟨0, 0, 1, 1⟩]).1.m_MissedGuesses ≠
      (runRequests (⟨⟨0, 0, 4096, 4096⟩, fun _ => ()⟩ : InputImage Unit)
        (PrefetchCacheAsyncFilter.New Unit)
        [⟨0, 0, 4096, 4096⟩, ⟨0, 0, 1, 1⟩]).1.m_NbOfProcessedPixels := by
  decide

/-! ## Copy sources of the fill loop -/

theorem GenerateData_allRegions {Pixel : Type} (input : InputImage Pixel)
    (self : PrefetchCacheAsyncFilter Pixel) (R : RegionType) :
    (GenerateData input self R).allRegions =
      if (self.m_CachedRegion.Crop R).2.GetNumberOfPixels > 0 then
        missingRegions self.m_CachedRegion R ++ [(self.m_CachedRegion.Crop R).2]
      else missingRegions self.m_CachedRegion R := by
  obtain ⟨e1, _, _⟩ := updateMetrics_regions self R
  unfold GenerateData
  simp only [GetMissingRegions, e1]

theorem allRegions_partition {Pixel : Type} (input : InputImage Pixel)
    (self : PrefetchCacheAsyncFilter Pixel) (R : RegionType) (hR : 0 < R.GetNumberOfPixels)
    (h : self.m_CachedRegion.GetNumberOfPixels = 0 ∨ (self.m_CachedRegion.Crop R).1 = true) :
    (GenerateData input self R).allRegions.Pairwise RegionType.DisjointFrom ∧
    (∀ A ∈ (GenerateData input self R).allRegions, R.IsInside A = true) ∧
    (∀ p, R.IsInsideIndex p = true →
      ∃ A ∈ (GenerateData input self R).allRegions, A.IsInsideIndex p = true) := by
  obtain ⟨m1, m2, m3, m4⟩ := missingRegions_spec self.m_CachedRegion R hR
  rw [GenerateData_allRegions]
  by_cases hpos : (self.m_CachedRegion.Crop R).2.GetNumberOfPixels > 0
  · have ht : (self.m_CachedRegion.Crop R).1 = true := by
      rcases h with h | h
      · exfalso
        by_cases ht : (self.m_CachedRegion.Crop R).1 = true
        · have := (crop_pixels_le _ R ht).1
          omega
        · simp only [Bool.not_eq_true] at ht
          rw [RegionType.crop_snd_of_not _ R ht] at hpos
          omega
      · exact h
    have hb := crop_bounds _ R ht
    have hp := (RegionType.numberOfPixels_pos_iff _).1 hpos
    simp only [hpos, if_true]
    refine ⟨?_, ?_, ?_⟩
    · rw [List.pairwise_append]
      refine ⟨m1, List.pairwise_singleton _ _, ?_⟩
      intro A hA B hB p hp'
      rw [List.mem_singleton] at hB
      subst hB
      have hk := m3 A hA p hp'.1
      have hk' := ((RegionType.crop_mem_iff _ R ht p).1 hp'.2).1
      rw [hk] at hk'
      exact absurd hk' (by simp)
    · intro A hA
      rcases List.mem_append.1 hA with hA | hA
      · exact m2 A hA
      · rw [List.mem_singleton] at hA
        subst hA
        rw [RegionType.isInside_iff]
        exact ⟨hp.1, hp.2, hb.1, hb.2.1, hb.2.2.1, hb.2.2.2⟩
    · intro p hpR
      by_cases hk : self.m_CachedRegion.IsInsideIndex p = true
      · exact ⟨_, List.mem_append.2 (Or.inr (List.mem_singleton.2 rfl)),
          (RegionType.crop_mem_iff _ R ht p).2 ⟨hk, hpR⟩⟩
      · simp only [Bool.not_eq_true] at hk
        obtain ⟨A, hA, hpA⟩ := m4 p hpR hk
        exact ⟨A, List.mem_append.2 (Or.inl hA), hpA⟩
  · simp only [hpos, if_false]
    refine ⟨m1, m2, ?_⟩
    intro p hpR
    by_cases hk : self.m_CachedRegion.IsInsideIndex p = true
    · exfalso
      have ht : (self.m_CachedRegion.Crop R).1 = true := by
        rw [RegionType.crop_fst_iff]
        rw [RegionType.isInsideIndex_iff] at hk hpR
        omega
      exact hpos (region_pos_of_mem _ p ((RegionType.crop_mem_iff _ R ht p).2 ⟨hk, hpR⟩))
    · simp only [Bool.not_eq_true] at hk
      exact m4 p hpR hk

/-- C11 at a cached region that does not touch the request.  On a fresh filter over an
8 x 8 image, after the request 2 x 2 at (0, 0) the cached region is that tile; for the next
request 2 x 2 at (4, 0) cropping fails, and the copy sources are the request and the whole
cached region, which is not inside the request. -/
theorem C11_sources_with_disjoint_cache :
    (runRequests (⟨⟨0, 0, 8, 8⟩, fun _ => ()⟩ : InputImage Unit)
        (PrefetchCacheAsyncFilter.New Unit) [⟨0, 0, 2, 2⟩]).1.m_CachedRegion = ⟨0, 0, 2, 2⟩ ∧
    ((⟨0, 0, 2, 2⟩ : RegionType).Crop ⟨4, 0, 2, 2⟩).1 = false ∧
    (GenerateData (⟨⟨0, 0, 8, 8⟩, fun _ => ()⟩ : InputImage Unit)
        (runRequests (⟨⟨0, 0, 8, 8⟩, fun _ => ()⟩ : InputImage Unit)
          (PrefetchCacheAsyncFilter.New Unit) [⟨0, 0, 2, 2⟩]).1
        ⟨4, 0, 2, 2⟩).allRegions = [⟨4, 0, 2, 2⟩, ⟨0, 0, 2, 2⟩] ∧
    (⟨4, 0, 2, 2⟩ : RegionType).IsInside ⟨0, 0, 2, 2⟩ = false := by
  decide

end otb
